import Mathlib

/-!
# Memory Scramble — Board ADT, shallow embedding

A shallow embedding of `src/board.ts` (the Board ADT of the Memory
Scramble server).  The TypeScript class keeps a mutable rows×cols grid of
`Slot | null`, per-player `firstSelection` and `pending` maps, per-cell
FIFO wait queues of suspended first-flip requests, and a list of pending
watchers.  We model the class state as an immutable record and every
method as a function from state to state; suspensions (waiter wakes,
watcher broadcasts) are recorded as explicit events emitted by an
operation.  Positions use `Int` coordinates because the TypeScript API
accepts arbitrary numeric coordinates (including negative ones).
-/

namespace MemScramble

/-- A grid position `{ r, c }` (TypeScript `Pos`). -/
structure Pos where
  r : Int
  c : Int
deriving DecidableEq, Repr

/-- An occupied cell (TypeScript `Slot`): label, face orientation, controller. -/
structure Slot where
  label : String
  faceUp : Bool
  controller : Option String
deriving DecidableEq, Repr

/-- TypeScript `PendingOutcome` (the non-null variants; the `null` case is
`Option.none` at the use sites, mirroring `PendingOutcome | null`). -/
inductive PendingOutcome where
  | matched (first second : Pos)
  | mismatched (first second : Pos)
deriving DecidableEq, Repr

/-- Observable suspension events: `wake p w` means the FIFO head `w` of the
wait queue on `p` was resolved (the TypeScript `Deferred.resolve()`), and
`broadcast ws` means `notifyChange` resolved the pending watchers `ws`. -/
inductive BEvent where
  | wake (p : Pos) (w : String)
  | broadcast (ws : List String)
deriving DecidableEq, Repr

/-- Association-list update mirroring `Map.set` (replace or append). -/
def alistSet {κ α : Type} [DecidableEq κ] (k : κ) (v : α) : List (κ × α) → List (κ × α)
  | [] => [(k, v)]
  | (k', v') :: rest => if k' = k then (k, v) :: rest else (k', v') :: alistSet k v rest

/-- Association-list lookup mirroring `Map.get` (`none` = absent). -/
def alistGet {κ α : Type} [DecidableEq κ] (k : κ) : List (κ × α) → Option α
  | [] => none
  | (k', v) :: rest => if k' = k then some v else alistGet k rest

/-- Association-list removal mirroring `Map.delete`: drop every binding of
the key (a real `Map` holds at most one). -/
def alistErase {κ α : Type} [DecidableEq κ] (k : κ) : List (κ × α) → List (κ × α)
  | [] => []
  | (k', v) :: rest => if k' = k then alistErase k rest else (k', v) :: alistErase k rest

/-- The whole mutable state of the TypeScript `Board` object.  `grid` is the
row-major rectangle of optional slots; the four registries mirror the
`firstSelection`, `pending`, `waitQueues` and `watchers` fields (wait-queue
entries and watchers are identified by the requesting player id; the
TypeScript `Deferred` objects carry no other observable identity). -/
structure BoardState where
  rows : Nat
  cols : Nat
  grid : List (List (Option Slot))
  firstSelection : List (String × Pos)
  pending : List (String × Option PendingOutcome)
  waitQueues : List (Pos × List String)
  watchers : List String
deriving DecidableEq, Repr

/-- Result of one method call: final state, emitted events, and the thrown
error if any (`none` = normal return). -/
inductive BError where
  | OutOfBounds      -- `Out of bounds (r,c)` thrown by `slotAt`
  | EmptySpace       -- `1-A: empty space`
  | Contested        -- `1-D: card is controlled by another player`
  | NoFirst          -- `No first card selected for this player`
  | EmptyTarget      -- `2-A: second position is empty`
  | SecondContested  -- `2-B: second card is controlled`
  | InvalidLabel     -- `invalid transformed card`
  | Internal         -- `Internal: first selection missing` (unreachable)
deriving DecidableEq, Repr

/-- State, events and outcome of one Board method call. -/
structure Out where
  state : BoardState
  evs : List BEvent
  err : Option BError
deriving DecidableEq, Repr

/-- `within`: bounds check on a position. -/
def within (s : BoardState) (p : Pos) : Bool :=
  decide (0 ≤ p.r ∧ p.r < (s.rows : Int) ∧ 0 ≤ p.c ∧ p.c < (s.cols : Int))

/-- `getCell(r, c)`: the optional slot at a position.  The source reads
`this.grid[r][c] ?? null`; out-of-range reads are `null`-like (the only
unguarded out-of-range call sites are unreachable under the rep invariant,
where the source would throw an internal RI error instead). -/
def getCell (s : BoardState) (p : Pos) : Option Slot :=
  if within s p then (((s.grid[p.r.toNat]?).getD [])[p.c.toNat]?).join
  else none

/-- `setCell(r, c, val)`: overwrite the grid entry at a position (used by
rule 3-A removal).  Out-of-range writes cannot happen in reachable states
(the source throws an RI error); here they are no-ops. -/
def setCell (p : Pos) (v : Option Slot) (s : BoardState) : BoardState :=
  if 0 ≤ p.r ∧ 0 ≤ p.c then
    let row := (s.grid[p.r.toNat]?).getD []
    { s with grid := s.grid.set p.r.toNat (row.set p.c.toNat v) }
  else s

/-- In-place mutation of the slot object at `p` (TypeScript `cell.f = …`);
a no-op when the position is empty or out of range. -/
def modifyCell (p : Pos) (f : Slot → Slot) (s : BoardState) : BoardState :=
  match getCell s p with
  | some sl => setCell p (some (f sl)) s
  | none => s

/-- The wait queue on a position (`waitQueues.get(key(p))`, empty if absent). -/
def queueAt (s : BoardState) (p : Pos) : List String :=
  (alistGet p s.waitQueues).getD []

/-- `enqueueAndWait`: append a waiter to the FIFO queue of a position. -/
def enqueue (p : Pos) (w : String) (s : BoardState) : BoardState :=
  { s with waitQueues := alistSet p (queueAt s p ++ [w]) s.waitQueues }

/-- `wakeNext`: resolve exactly one waiter (the FIFO head) on a position, if any. -/
def wakeNext (p : Pos) (s : BoardState) : BoardState × List BEvent :=
  match queueAt s p with
  | [] => (s, [])
  | w :: rest => ({ s with waitQueues := alistSet p rest s.waitQueues }, [.wake p w])

/-- `notifyChange`: resolve every pending watcher and empty the set
(early return when there are none). -/
def notifyChange (s : BoardState) : BoardState × List BEvent :=
  if s.watchers = [] then (s, [])
  else ({ s with watchers := [] }, [.broadcast s.watchers])

/-- `pending.get(p) ?? null`. -/
def pendingOf (s : BoardState) (p : String) : Option PendingOutcome :=
  (alistGet p s.pending).join

/-- One arm of the rule 3-B loop body: if the cell at `q` is still occupied,
face-up and uncontrolled, flip it face down; report whether it flipped. -/
def settleFlipDown (q : Pos) (st : BoardState) : BoardState × Bool :=
  match getCell st q with
  | some cell =>
      if cell.faceUp ∧ cell.controller = none then
        (modifyCell q (fun c => { c with faceUp := false }) st, true)
      else (st, false)
  | none => (st, false)

/-- `settleBeforeNewFirstMove(p)`: apply rules 3-A/3-B for the pending
outcome of player `p` before a new first flip. -/
def settleBeforeNewFirstMove (p : String) (s : BoardState) : BoardState × List BEvent :=
  match pendingOf s p with
  | none => (s, [])
  | some (.matched a b) =>
      let s2 := setCell b none (setCell a none s)
      let w1 := wakeNext a s2
      let w2 := wakeNext b w1.1
      let n := notifyChange w2.1
      ({ n.1 with pending := alistSet p none n.1.pending }, w1.2 ++ w2.2 ++ n.2)
  | some (.mismatched a b) =>
      let stA := settleFlipDown a s
      let stB := settleFlipDown b stA.1
      let n := if stA.2 ∨ stB.2 then notifyChange stB.1 else (stB.1, [])
      ({ n.1 with pending := alistSet p none n.1.pending }, n.2)

/-- `flipFirst(pos, by)`: synchronous first-card attempt (rules 1-A..1-D,
failing — not waiting — on 1-D). -/
def flipFirst (pos : Pos) (pl : String) (s : BoardState) : Out :=
  let st := settleBeforeNewFirstMove pl s
  if !within st.1 pos then ⟨st.1, st.2, some .OutOfBounds⟩
  else match getCell st.1 pos with
  | none => ⟨st.1, st.2, some .EmptySpace⟩
  | some slot =>
    if !slot.faceUp then
      let s2 := modifyCell pos (fun c => { c with faceUp := true, controller := some pl }) st.1
      let n := notifyChange s2
      ⟨{ n.1 with firstSelection := alistSet pl pos n.1.firstSelection }, st.2 ++ n.2, none⟩
    else if slot.controller = none ∨ slot.controller = some pl then
      let s2 := modifyCell pos (fun c => { c with controller := some pl }) st.1
      ⟨{ s2 with firstSelection := alistSet pl pos s2.firstSelection }, st.2, none⟩
    else ⟨st.1, st.2, some .Contested⟩

/-- `relinquishFirstOnly(by)`: drop the caller's first selection, release
its controller if the cell still exists, and wake one waiter on it
(the shared 2-A/2-B release sequence). -/
def relinquishFirstOnly (pl : String) (s : BoardState) : Out :=
  match alistGet pl s.firstSelection with
  | none => ⟨s, [], none⟩
  | some first =>
    if within s first then
      match getCell s first with
      | some sl =>
          let w := wakeNext first (setCell first (some { sl with controller := none }) s)
          ⟨{ w.1 with firstSelection := alistErase pl w.1.firstSelection }, w.2, none⟩
      | none =>
          ⟨{ s with firstSelection := alistErase pl s.firstSelection }, [], none⟩
    else ⟨s, [], some .OutOfBounds⟩

/-- `flipSecond(pos, by)`: second-card attempt (rules 2-A..2-E).  The
out-of-bounds second position is folded into the Empty case by the source
(`this.within(pos) ? this.getCell(...) : null`). -/
def flipSecond (pos : Pos) (pl : String) (s : BoardState) : Out :=
  match alistGet pl s.firstSelection with
  | none => ⟨s, [], some .NoFirst⟩
  | some first =>
    match (if within s pos then getCell s pos else none) with
    | none =>
        let r := relinquishFirstOnly pl s
        if r.err.isSome then r else ⟨r.state, r.evs, some .EmptyTarget⟩
    | some sl2 =>
      if sl2.faceUp && sl2.controller.isSome then
        let r := relinquishFirstOnly pl s
        if r.err.isSome then r else ⟨r.state, r.evs, some .SecondContested⟩
      else
        let turnedUp := !sl2.faceUp
        let sA := if !sl2.faceUp then modifyCell pos (fun c => { c with faceUp := true }) s else s
        if !within sA first then ⟨sA, [], some .OutOfBounds⟩
        else match getCell sA first, getCell sA pos with
        | some c1, some c2 =>
          if c1.label = c2.label then
            let sC := modifyCell pos (fun c => { c with controller := some pl })
              (modifyCell first (fun c => { c with controller := some pl }) sA)
            let sD := { sC with pending := alistSet pl (some (.matched first pos)) sC.pending }
            let n := if turnedUp then notifyChange sD else (sD, [])
            ⟨{ n.1 with firstSelection := alistErase pl n.1.firstSelection }, n.2, none⟩
          else
            let sC := modifyCell pos (fun c => { c with controller := none })
              (modifyCell first (fun c => { c with controller := none }) sA)
            let w1 := wakeNext first sC
            let w2 := wakeNext pos w1.1
            let sF := { w2.1 with pending := alistSet pl (some (.mismatched first pos)) w2.1.pending }
            let n := if turnedUp then notifyChange sF else (sF, [])
            ⟨{ n.1 with firstSelection := alistErase pl n.1.firstSelection }, w1.2 ++ w2.2 ++ n.2, none⟩
        | _, _ => ⟨sA, [], some .Internal⟩

/-- `flipSecondAsync` merely delegates to the synchronous `flipSecond`
(rule 2-B: the second flip never waits). -/
def flipSecondAsync (pos : Pos) (pl : String) (s : BoardState) : Out :=
  flipSecond pos pl s

/-- One iteration of the `flipFirstAsync` retry loop: either the attempt
finishes (`Sum.inl`, success or thrown error), or the card is face-up and
controlled by another player and the caller enqueues and suspends
(`Sum.inr` carries the state with the new waiter queued). -/
def flipFirstAttempt (pos : Pos) (pl : String) (s : BoardState) : Out ⊕ BoardState :=
  if !within s pos then .inl ⟨s, [], some .OutOfBounds⟩
  else match getCell s pos with
  | none => .inl ⟨s, [], some .EmptySpace⟩
  | some slot =>
    if !slot.faceUp then
      let n := notifyChange
        (modifyCell pos (fun c => { c with faceUp := true, controller := some pl }) s)
      .inl ⟨{ n.1 with firstSelection := alistSet pl pos n.1.firstSelection }, n.2, none⟩
    else if slot.controller = none ∨ slot.controller = some pl then
      let s1 := modifyCell pos (fun c => { c with controller := some pl }) s
      .inl ⟨{ s1 with firstSelection := alistSet pl pos s1.firstSelection }, [], none⟩
    else .inr (enqueue pos pl s)

/-- `flipFirstAsync(pos, by)` up to its first suspension point: run the
pending cleanup, then the first iteration of the retry loop. -/
def flipFirstAsyncStart (pos : Pos) (pl : String) (s : BoardState) : Out ⊕ BoardState :=
  let st := settleBeforeNewFirstMove pl s
  match flipFirstAttempt pos pl st.1 with
  | .inl o => .inl ⟨o.state, st.2 ++ o.evs, o.err⟩
  | .inr s2 => .inr s2

/-- The character class of JavaScript `/\s/` (and of `String.prototype.trim`):
space, tab, LF, VT, FF, CR, NBSP, and the Unicode space separators, line
separators and BOM. -/
def isJsWhitespace (ch : Char) : Bool :=
  [' ', '\t', '\n', '\r', '\x0b', '\x0c', '\u00A0', '\u1680', '\u2028',
   '\u2029', '\u202F', '\u205F', '\u3000', '\uFEFF'].contains ch
  || ('\u2000' ≤ ch && ch ≤ '\u200A')

/-- The `map`/`mapCards` validation of a transformed card:
`out.length === 0 || out.trim() !== out || /\s/.test(out)`.  The middle
disjunct is subsumed by the last one (`trim` strips exactly `\s`-class
characters), so the test reduces to: empty, or contains whitespace. -/
def invalidCard (out : String) : Bool :=
  out.toList.isEmpty || out.toList.any isJsWhitespace

/-- Append `x` to the group of key `k` (creating the group at the end if
absent): one step of building the `byValue` insertion-ordered map. -/
def alistAppend {κ α : Type} [DecidableEq κ] (k : κ) (x : α) :
    List (κ × List α) → List (κ × List α)
  | [] => [(k, [x])]
  | (k', xs) :: rest =>
      if k' = k then (k', xs ++ [x]) :: rest else (k', xs) :: alistAppend k x rest

/-- The row-major list of occupied positions with their labels (the cells
visited by the snapshot loop of `map`, skipping removed ones). -/
def occupiedList (s : BoardState) : List (Pos × String) :=
  (List.range s.rows).flatMap fun (r : Nat) =>
    (List.range s.cols).filterMap fun (c : Nat) =>
      match getCell s ⟨(r : Int), (c : Int)⟩ with
      | some sl => some (⟨(r : Int), (c : Int)⟩, sl.label)
      | none => none

/-- Generic group-by fold: positions grouped under their label, in first-
occurrence order (the `byValue` map of `map`/`mapCards`). -/
def grouped {κ α : Type} [DecidableEq κ] (l : List (α × κ)) : List (κ × List α) :=
  l.foldl (fun acc e => alistAppend e.2 e.1 acc) []

/-- `byValue`: every occupied label with the row-major list of its positions. -/
def collectByValue (s : BoardState) : List (String × List Pos) :=
  grouped (occupiedList s)

/-- The distinct original labels on which a `map`/`mapCards` call evaluates
the transformer (exactly once each). -/
def transformCalls (s : BoardState) : List String :=
  (collectByValue s).map Prod.fst

/-- The commit phase of `map`: for each original-label group, rewrite every
still-occupied position of the group to the transformed label. -/
def commitMap (t : String → String) (entries : List (String × List Pos))
    (s : BoardState) : BoardState :=
  entries.foldl (fun st e =>
    e.2.foldl (fun st2 q => modifyCell q (fun c => { c with label := t e.1 }) st2) st) s

/-- `map(transform)`: snapshot positions by value, transform once per
distinct original (failing `InvalidLabel` if any result is empty or has
whitespace, before committing anything), then commit per-group.  The final
`this._notify?.()` hook is never set by any constructor, so a `map` call
emits no watcher broadcast. -/
def map (t : String → String) (s : BoardState) : Out :=
  let entries := collectByValue s
  if entries.any (fun e => invalidCard (t e.1)) then ⟨s, [], some .InvalidLabel⟩
  else ⟨commitMap t entries s, [], none⟩

/-- One cell write of the `mapCards` commit: rewrite the cell at `q` to
`newVal` if it is still occupied and its label differs, recording the
change in the flag. -/
def mapCardsWrite (newVal : String) (acc : BoardState × Bool) (q : Pos) :
    BoardState × Bool :=
  match getCell acc.1 q with
  | some cell =>
      if cell.label ≠ newVal then
        (setCell q (some { cell with label := newVal }) acc.1, true)
      else acc
  | none => acc

/-- One group of the `mapCards` commit: groups whose label is unchanged by
the transform are skipped (`newVal === orig`), the rest write every
position. -/
def mapCardsGroup (t : String → String) (acc : BoardState × Bool)
    (e : String × List Pos) : BoardState × Bool :=
  if t e.1 = e.1 then acc else e.2.foldl (mapCardsWrite (t e.1)) acc

/-- The commit phase of `mapCards`: the `changed` flag records whether any
cell was actually rewritten. -/
def commitMapCards (t : String → String) (entries : List (String × List Pos))
    (s : BoardState) : BoardState × Bool :=
  entries.foldl (mapCardsGroup t) (s, false)

/-- Every position of every group holds, on the board, exactly the group's
key as its label (the defining property of the `byValue` snapshot). -/
def GraphEntries (s : BoardState) (entries : List (String × List Pos)) : Prop :=
  ∀ e ∈ entries, ∀ q ∈ e.2, ∃ sl, getCell s q = some sl ∧ sl.label = e.1

/-- `mapCards(_player, transform)`: the `map` variant that broadcasts to the
watchers, once at the end, iff at least one label actually changed. -/
def mapCards (t : String → String) (s : BoardState) : Out :=
  let entries := collectByValue s
  if entries.any (fun e => invalidCard (t e.1)) then ⟨s, [], some .InvalidLabel⟩
  else
    let st := commitMapCards t entries s
    if st.2 then
      let n := notifyChange st.1
      ⟨n.1, n.2, none⟩
    else ⟨st.1, [], none⟩

/-- The private `Board` constructor: a rows×cols grid of face-down,
uncontrolled cards taken row-major from `labels`, with every registry empty. -/
def initBoard (rows cols : Nat) (labels : List String) : BoardState :=
  { rows := rows
    cols := cols
    grid := (List.range rows).map fun r =>
      (List.range cols).map fun c => some ⟨(labels[r * cols + c]?).getD "", false, none⟩
    firstSelection := []
    pending := []
    waitQueues := []
    watchers := [] }

/-- `watch(forPlayer)` up to its suspension point: enqueue a watcher. -/
def watch (pl : String) (s : BoardState) : BoardState :=
  { s with watchers := s.watchers ++ [pl] }

/-- `snapshot(forPlayer)`: the textual player view. -/
def snapshot (forPlayer : String) (s : BoardState) : String :=
  let cells := (List.range s.rows).flatMap fun (r : Nat) =>
    (List.range s.cols).map fun (c : Nat) =>
      match getCell s ⟨(r : Int), (c : Int)⟩ with
      | none => "none"
      | some cell =>
          if !cell.faceUp then "down"
          else if cell.controller = some forPlayer then "my " ++ cell.label
          else "up " ++ cell.label
  String.intercalate "\n" ((toString s.rows ++ "x" ++ toString s.cols) :: cells) ++ "\n"

/-! ## Concrete board states used by counterexamples and witnesses -/

/-- A 1×2 board where player `p` holds a pending `Matched` outcome on both
cells and two waiters (`bob`, then `carol`) are queued on position (0,0). -/
def twoWaiterBoard : BoardState :=
  { rows := 1, cols := 2
    grid := [[some ⟨"u", true, some "p"⟩, some ⟨"u", true, some "p"⟩]]
    firstSelection := []
    pending := [("p", some (.matched ⟨0, 0⟩ ⟨0, 1⟩))]
    waitQueues := [(⟨0, 0⟩, ["bob", "carol"])]
    watchers := [] }

/-- A fresh 1×2 board (labels `a`, `b`) with one pending watcher `bob`. -/
def watcherBoard : BoardState :=
  { rows := 1, cols := 2
    grid := [[some ⟨"a", false, none⟩, some ⟨"b", false, none⟩]]
    firstSelection := []
    pending := []
    waitQueues := []
    watchers := ["bob"] }

/-- A 1×2 board where `alice` has flipped (0,0) as her first card. -/
def firstSelBoard : BoardState :=
  { rows := 1, cols := 2
    grid := [[some ⟨"a", true, some "alice"⟩, some ⟨"b", false, none⟩]]
    firstSelection := [("alice", ⟨0, 0⟩)]
    pending := []
    waitQueues := []
    watchers := [] }

/-- A 1×2 board where `alice` holds a pending `Matched` outcome on both cells. -/
def pendingMatchedBoard : BoardState :=
  { rows := 1, cols := 2
    grid := [[some ⟨"u", true, some "alice"⟩, some ⟨"u", true, some "alice"⟩]]
    firstSelection := []
    pending := [("alice", some (.matched ⟨0, 0⟩ ⟨0, 1⟩))]
    waitQueues := []
    watchers := [] }

/-- A 1×2 board where `alice` controls her first card (0,0) and (0,1) is
face-up and controlled by `bob`, with a waiter `carol` queued on (0,0). -/
def contestedSecondBoard : BoardState :=
  { rows := 1, cols := 2
    grid := [[some ⟨"a", true, some "alice"⟩, some ⟨"b", true, some "bob"⟩]]
    firstSelection := [("alice", ⟨0, 0⟩), ("bob", ⟨0, 1⟩)]
    pending := []
    waitQueues := [(⟨0, 0⟩, ["carol"])]
    watchers := [] }

/-- A fresh 1×2 board with distinct labels `a` and `b`. -/
def plainBoard : BoardState :=
  { rows := 1, cols := 2
    grid := [[some ⟨"a", false, none⟩, some ⟨"b", false, none⟩]]
    firstSelection := []
    pending := []
    waitQueues := []
    watchers := [] }

/-! ## Derived notions used by the specification claims -/

/-- The effect of `map` on one occupied cell: rewrite the label, keep face
and controller. -/
def relabelCell (t : String → String) (sl : Slot) : Slot :=
  { sl with label := t sl.label }

/-- Label `v` occurs on some occupied cell of the board. -/
def labelPresent (s : BoardState) (v : String) : Prop :=
  ∃ p sl, getCell s p = some sl ∧ sl.label = v

/-- Whether an event is a watcher broadcast. -/
def isBroadcastEvent : BEvent → Bool
  | .broadcast _ => true
  | .wake _ _ => false

/-- Invariant I1 of the specification: every occupied face-down cell has no
controller. -/
def I1 (s : BoardState) : Prop :=
  ∀ p sl, getCell s p = some sl → sl.faceUp = false → sl.controller = none

/-- Auxiliary invariant: if the cell a recorded first selection points at
still exists, it is face-up and controlled by the selection's owner. -/
def FirstSelInv (s : BoardState) : Prop :=
  ∀ q first, alistGet q s.firstSelection = some first →
    ∀ sl, getCell s first = some sl → sl.faceUp = true ∧ sl.controller = some q

/-- The inductive invariant: I1 strengthened by the first-selection
bookkeeping fact needed to push it through every operation. -/
def Inv (s : BoardState) : Prop :=
  I1 s ∧ FirstSelInv s

/-- One public Board operation (the methods of the class, applied to the
state between method calls; `retryFirst` is the wake-up retry iteration of
`flipFirstAsync`, which runs without the initial cleanup). -/
inductive Op where
  | opFlipFirst (pos : Pos) (pl : String)
  | opFlipFirstAsync (pos : Pos) (pl : String)
  | retryFirst (pos : Pos) (pl : String)
  | opFlipSecond (pos : Pos) (pl : String)
  | opSettle (pl : String)
  | opMap (t : String → String)
  | opMapCards (t : String → String)
  | opSnapshot (pl : String)
  | opWatch (pl : String)

/-- The state left behind by one operation (for a suspending first flip,
the state with the waiter enqueued — the state observable between method
calls while the request is parked). -/
def applyOp : Op → BoardState → BoardState
  | .opFlipFirst pos pl, s => (flipFirst pos pl s).state
  | .opFlipFirstAsync pos pl, s =>
      match flipFirstAsyncStart pos pl s with
      | .inl o => o.state
      | .inr s' => s'
  | .retryFirst pos pl, s =>
      match flipFirstAttempt pos pl s with
      | .inl o => o.state
      | .inr s' => s'
  | .opFlipSecond pos pl, s => (flipSecond pos pl s).state
  | .opSettle pl, s => (settleBeforeNewFirstMove pl s).1
  | .opMap t, s => (map t s).state
  | .opMapCards t, s => (mapCards t s).state
  | .opSnapshot _, s => s
  | .opWatch pl, s => watch pl s

/-- Board states reachable from a parsed board through method calls. -/
inductive Reachable : BoardState → Prop where
  | init (rows cols : Nat) (labels : List String) :
      labels.length = rows * cols → Reachable (initBoard rows cols labels)
  | step {s : BoardState} (op : Op) : Reachable s → Reachable (applyOp op s)

/-- The per-cell label assignments performed by the commit loop of `map`,
flattened in execution order. -/
def assignsOf (t : String → String) (entries : List (String × List Pos)) :
    List (Pos × String) :=
  entries.flatMap fun e => e.2.map fun q => (q, t e.1)

/-- One committed assignment: write label `a.2` into the cell at `a.1`. -/
def applyAssign (st : BoardState) (a : Pos × String) : BoardState :=
  modifyCell a.1 (fun c => { c with label := a.2 }) st

/-- Every assignment writes the transform of the original label of its own
target cell (the group-by snapshot guarantees this). -/
def AssignsGraph (t : String → String) (s : BoardState)
    (A : List (Pos × String)) : Prop :=
  ∀ a ∈ A, ∃ sl, getCell s a.1 = some sl ∧ a.2 = t sl.label

/-- Intermediate commit states: every cell is either still original or
already relabelled. -/
def RelabelInv (t : String → String) (s st : BoardState) : Prop :=
  ∀ q, getCell st q = getCell s q ∨ getCell st q = (getCell s q).map (relabelCell t)

/-- The transformer actually changes some label present on the board. -/
def labelActuallyChanges (t : String → String) (s : BoardState) : Prop :=
  ∃ v, labelPresent s v ∧ t v ≠ v

/-! ## Association-list lemmas -/

theorem alistGet_set_self {κ α : Type} [DecidableEq κ] (k : κ) (v : α)
    (l : List (κ × α)) : alistGet k (alistSet k v l) = some v := by
  induction l with
  | nil => simp [alistSet, alistGet]
  | cons e t ih =>
      obtain ⟨k', v'⟩ := e
      by_cases h : k' = k
      · simp [alistSet, alistGet, h]
      · simp [alistSet, alistGet, h, ih]

theorem alistGet_set_ne {κ α : Type} [DecidableEq κ] {j k : κ} (h : j ≠ k) (v : α)
    (l : List (κ × α)) : alistGet j (alistSet k v l) = alistGet j l := by
  induction l with
  | nil => simp [alistSet, alistGet, Ne.symm h]
  | cons e t ih =>
      obtain ⟨k', v'⟩ := e
      by_cases hk : k' = k
      · subst hk
        simp [alistSet, alistGet, Ne.symm h]
      · by_cases hj : k' = j
        · simp [alistSet, alistGet, hk, hj, h]
        · simp [alistSet, alistGet, hk, hj, ih]

theorem alistGet_erase_self {κ α : Type} [DecidableEq κ] (k : κ)
    (l : List (κ × α)) : alistGet k (alistErase k l) = none := by
  induction l with
  | nil => simp [alistErase, alistGet]
  | cons e t ih =>
      obtain ⟨k', v'⟩ := e
      by_cases h : k' = k
      · simp [alistErase, alistGet, h, ih]
      · simp [alistErase, alistGet, h, ih]

theorem alistGet_erase_ne {κ α : Type} [DecidableEq κ] {j k : κ} (h : j ≠ k)
    (l : List (κ × α)) : alistGet j (alistErase k l) = alistGet j l := by
  induction l with
  | nil => simp [alistErase, alistGet]
  | cons e t ih =>
      obtain ⟨k', v'⟩ := e
      by_cases hk : k' = k
      · subst hk
        simp [alistErase, alistGet, Ne.symm h, ih]
      · by_cases hj : k' = j
        · simp [alistErase, alistGet, hk, hj, h]
        · simp [alistErase, alistGet, hk, hj, ih]

/-! ## Pointwise cell lemmas -/

@[simp] theorem setCell_rows (p : Pos) (v : Option Slot) (s : BoardState) :
    (setCell p v s).rows = s.rows := by
  unfold setCell; split <;> rfl

@[simp] theorem setCell_cols (p : Pos) (v : Option Slot) (s : BoardState) :
    (setCell p v s).cols = s.cols := by
  unfold setCell; split <;> rfl

@[simp] theorem setCell_firstSelection (p : Pos) (v : Option Slot) (s : BoardState) :
    (setCell p v s).firstSelection = s.firstSelection := by
  unfold setCell; split <;> rfl

@[simp] theorem setCell_pending (p : Pos) (v : Option Slot) (s : BoardState) :
    (setCell p v s).pending = s.pending := by
  unfold setCell; split <;> rfl

@[simp] theorem setCell_waitQueues (p : Pos) (v : Option Slot) (s : BoardState) :
    (setCell p v s).waitQueues = s.waitQueues := by
  unfold setCell; split <;> rfl

@[simp] theorem setCell_watchers (p : Pos) (v : Option Slot) (s : BoardState) :
    (setCell p v s).watchers = s.watchers := by
  unfold setCell; split <;> rfl

@[simp] theorem within_setCell (p : Pos) (v : Option Slot) (s : BoardState) (q : Pos) :
    within (setCell p v s) q = within s q := by
  unfold within; rw [setCell_rows, setCell_cols]

theorem within_nonneg {s : BoardState} {p : Pos} (h : within s p = true) :
    0 ≤ p.r ∧ p.r < (s.rows : Int) ∧ 0 ≤ p.c ∧ p.c < (s.cols : Int) := by
  simpa [within] using h

theorem getCell_some_within {s : BoardState} {p : Pos} {sl : Slot}
    (h : getCell s p = some sl) : within s p = true := by
  by_contra hw
  simp [getCell, hw] at h

theorem toNat_ne_of_ne {a b : Int} (ha : 0 ≤ a) (hb : 0 ≤ b) (h : a ≠ b) :
    a.toNat ≠ b.toNat := by
  intro he
  exact h (by omega)

theorem getCell_setCell_ne {p q : Pos} (hne : q ≠ p) (v : Option Slot)
    (s : BoardState) : getCell (setCell p v s) q = getCell s q := by
  by_cases hw : within s q
  · by_cases hg : 0 ≤ p.r ∧ 0 ≤ p.c
    · have hq := within_nonneg hw
      simp only [getCell, within_setCell, hw, if_true]
      unfold setCell
      rw [if_pos hg]
      by_cases hr : q.r = p.r
      · have hc : q.c ≠ p.c := fun hc => hne (by cases p; cases q; simp_all)
        have hcn : q.c.toNat ≠ p.c.toNat := toNat_ne_of_ne hq.2.2.1 hg.2 hc
        simp only [hr, List.getElem?_set_self']
        cases hrow : s.grid[p.r.toNat]? with
        | none => simp
        | some row =>
            simp [List.getElem?_set_ne (Ne.symm hcn)]
      · have hrn : q.r.toNat ≠ p.r.toNat := toNat_ne_of_ne hq.1 hg.1 hr
        simp [List.getElem?_set_ne (Ne.symm hrn)]
    · unfold setCell
      rw [if_neg hg]
  · simp [getCell, hw]

theorem getCell_setCell_none_self (p : Pos) (s : BoardState) :
    getCell (setCell p none s) p = none := by
  by_cases hg : 0 ≤ p.r ∧ 0 ≤ p.c
  · by_cases hw : within s p
    · simp only [getCell, within_setCell, hw, if_true]
      unfold setCell
      rw [if_pos hg]
      simp only [List.getElem?_set_self']
      cases hrow : s.grid[p.r.toNat]? with
      | none => simp
      | some row =>
          simp only [Option.map_eq_map, Option.map_some', Function.const_apply,
            Option.getD_some, List.getElem?_set_self']
          cases row[p.c.toNat]? <;> simp
    · simp [getCell, hw]
  · have hw : within s p = false := by
      simp only [within, decide_eq_false_iff_not]
      intro hcon
      exact hg ⟨hcon.1, hcon.2.2.1⟩
    simp [getCell, hw]

theorem getCell_as_parts {s : BoardState} {p : Pos} {sl : Slot}
    (h : getCell s p = some sl) :
    within s p = true ∧ ∃ row, s.grid[p.r.toNat]? = some row ∧
      row[p.c.toNat]? = some (some sl) := by
  have hw := getCell_some_within h
  refine ⟨hw, ?_⟩
  simp only [getCell, hw, if_true] at h
  cases hrow : s.grid[p.r.toNat]? with
  | none => simp [hrow] at h
  | some row =>
      refine ⟨row, rfl, ?_⟩
      simp only [hrow, Option.getD_some] at h
      cases hcol : row[p.c.toNat]? with
      | none => simp [hcol] at h
      | some x => simp only [hcol] at h; simp [Option.join] at h; simp [h]

theorem getCell_setCell_some_self {s : BoardState} {p : Pos} {sl : Slot}
    (h : getCell s p = some sl) (v : Option Slot) :
    getCell (setCell p v s) p = v := by
  obtain ⟨hw, row, hrow, hcol⟩ := getCell_as_parts h
  have hg : 0 ≤ p.r ∧ 0 ≤ p.c := by
    have := within_nonneg hw
    exact ⟨this.1, this.2.2.1⟩
  simp only [getCell, within_setCell, hw, if_true]
  unfold setCell
  rw [if_pos hg]
  simp only [List.getElem?_set_self', hrow, Option.map_eq_map, Option.map_some',
    Function.const_apply, Option.getD_some]
  simp [hcol]

@[simp] theorem modifyCell_rows (p : Pos) (f : Slot → Slot) (s : BoardState) :
    (modifyCell p f s).rows = s.rows := by
  unfold modifyCell; split <;> simp

@[simp] theorem modifyCell_cols (p : Pos) (f : Slot → Slot) (s : BoardState) :
    (modifyCell p f s).cols = s.cols := by
  unfold modifyCell; split <;> simp

@[simp] theorem modifyCell_firstSelection (p : Pos) (f : Slot → Slot) (s : BoardState) :
    (modifyCell p f s).firstSelection = s.firstSelection := by
  unfold modifyCell; split <;> simp

@[simp] theorem modifyCell_pending (p : Pos) (f : Slot → Slot) (s : BoardState) :
    (modifyCell p f s).pending = s.pending := by
  unfold modifyCell; split <;> simp

@[simp] theorem modifyCell_waitQueues (p : Pos) (f : Slot → Slot) (s : BoardState) :
    (modifyCell p f s).waitQueues = s.waitQueues := by
  unfold modifyCell; split <;> simp

@[simp] theorem modifyCell_watchers (p : Pos) (f : Slot → Slot) (s : BoardState) :
    (modifyCell p f s).watchers = s.watchers := by
  unfold modifyCell; split <;> simp

@[simp] theorem within_modifyCell (p : Pos) (f : Slot → Slot) (s : BoardState) (q : Pos) :
    within (modifyCell p f s) q = within s q := by
  unfold within; rw [modifyCell_rows, modifyCell_cols]

theorem getCell_modifyCell_self (p : Pos) (f : Slot → Slot) (s : BoardState) :
    getCell (modifyCell p f s) p = (getCell s p).map f := by
  unfold modifyCell
  cases h : getCell s p with
  | none => exact h
  | some sl => simp [getCell_setCell_some_self h]

theorem getCell_modifyCell_ne {p q : Pos} (hne : q ≠ p) (f : Slot → Slot)
    (s : BoardState) : getCell (modifyCell p f s) q = getCell s q := by
  cases h : getCell s p with
  | none => unfold modifyCell; rw [h]
  | some sl =>
      unfold modifyCell
      rw [h]
      exact getCell_setCell_ne hne _ s

/-! ## Group-by lemmas for the `map` snapshot (`byValue`) -/

theorem alistGet_mem {κ α : Type} [DecidableEq κ] {k : κ} {v : α}
    {l : List (κ × α)} (h : alistGet k l = some v) : (k, v) ∈ l := by
  induction l with
  | nil => simp [alistGet] at h
  | cons e t ih =>
      obtain ⟨k', v'⟩ := e
      by_cases hk : k' = k
      · subst hk
        rw [alistGet, if_pos rfl] at h
        cases h
        exact List.mem_cons_self _ _
      · rw [alistGet, if_neg hk] at h
        exact List.mem_cons_of_mem _ (ih h)

theorem alistGet_alistAppend_self {κ α : Type} [DecidableEq κ] (k : κ) (x : α)
    (l : List (κ × List α)) :
    alistGet k (alistAppend k x l) = some ((alistGet k l).getD [] ++ [x]) := by
  induction l with
  | nil => simp [alistAppend, alistGet]
  | cons e t ih =>
      obtain ⟨k', xs⟩ := e
      by_cases hk : k' = k
      · subst hk
        simp [alistAppend, alistGet]
      · simp [alistAppend, alistGet, hk, ih]

theorem alistGet_alistAppend_ne {κ α : Type} [DecidableEq κ] {j k : κ} (h : j ≠ k)
    (x : α) (l : List (κ × List α)) :
    alistGet j (alistAppend k x l) = alistGet j l := by
  induction l with
  | nil => simp [alistAppend, alistGet, Ne.symm h]
  | cons e t ih =>
      obtain ⟨k', xs⟩ := e
      by_cases hk : k' = k
      · subst hk
        simp [alistAppend, alistGet, Ne.symm h]
      · by_cases hj : k' = j
        · simp [alistAppend, alistGet, hk, hj, h]
        · simp [alistAppend, alistGet, hk, hj, ih]

theorem mem_alistAppend {κ α : Type} [DecidableEq κ] {k' : κ} {xs' : List α}
    {k : κ} {x : α} {l : List (κ × List α)} (h : (k', xs') ∈ alistAppend k x l) :
    (k', xs') ∈ l ∨ (k' = k ∧ xs' = (alistGet k l).getD [] ++ [x]) := by
  induction l with
  | nil =>
      simp only [alistAppend, List.mem_singleton, Prod.mk.injEq] at h
      exact Or.inr ⟨h.1, by simp [alistGet, h.2]⟩
  | cons e t ih =>
      obtain ⟨k0, xs0⟩ := e
      by_cases hk : k0 = k
      · subst hk
        rw [alistAppend, if_pos rfl] at h
        rcases List.mem_cons.mp h with h | h
        · cases h
          exact Or.inr ⟨rfl, by simp [alistGet]⟩
        · exact Or.inl (List.mem_cons_of_mem _ h)
      · rw [alistAppend, if_neg hk] at h
        rcases List.mem_cons.mp h with h | h
        · exact Or.inl (h ▸ List.mem_cons_self _ _)
        · rcases ih h with h | ⟨h1, h2⟩
          · exact Or.inl (List.mem_cons_of_mem _ h)
          · refine Or.inr ⟨h1, ?_⟩
            rw [h2]
            have : alistGet k ((k0, xs0) :: t) = alistGet k t := by
              rw [alistGet, if_neg hk]
            rw [this]

theorem grouped_sound_aux {κ α : Type} [DecidableEq κ] (L : List (α × κ)) :
    ∀ (acc : List (κ × List α)) (C : α × κ → Prop),
      (∀ k xs x, (k, xs) ∈ acc → x ∈ xs → C (x, k)) →
      (∀ e ∈ L, C (e.1, e.2)) →
      ∀ k xs x, (k, xs) ∈ L.foldl (fun a e => alistAppend e.2 e.1 a) acc → x ∈ xs →
        C (x, k) := by
  induction L with
  | nil =>
      intro acc C hacc _ k xs x hmem hx
      exact hacc k xs x hmem hx
  | cons e t ih =>
      intro acc C hacc hL k xs x hmem hx
      simp only [List.foldl_cons] at hmem
      refine ih (alistAppend e.2 e.1 acc) C ?_
        (fun e' he' => hL e' (List.mem_cons_of_mem _ he')) k xs x hmem hx
      intro k' xs' x' hm hxx
      rcases mem_alistAppend hm with hm | ⟨hkk, hxs⟩
      · exact hacc k' xs' x' hm hxx
      · subst hkk
        subst hxs
        rcases List.mem_append.mp hxx with hxx | hxx
        · cases hga : alistGet e.2 acc with
          | none => rw [hga] at hxx; simp at hxx
          | some xs0 =>
              rw [hga] at hxx
              exact hacc e.2 xs0 x' (alistGet_mem hga) (by simpa using hxx)
        · simp only [List.mem_singleton] at hxx
          subst hxx
          exact hL e (List.mem_cons_self _ _)

/-- Elements of a group all come from pairs of the original list. -/
theorem grouped_sound {κ α : Type} [DecidableEq κ] {L : List (α × κ)}
    {k : κ} {xs : List α} {x : α} (hmem : (k, xs) ∈ grouped L) (hx : x ∈ xs) :
    (x, k) ∈ L :=
  grouped_sound_aux L [] (fun e => e ∈ L) (by simp) (fun e he => he) k xs x hmem hx

theorem grouped_persist {κ α : Type} [DecidableEq κ] (L : List (α × κ))
    (acc : List (κ × List α)) (k : κ) (x : α)
    (h : x ∈ (alistGet k acc).getD []) :
    x ∈ (alistGet k (L.foldl (fun a e => alistAppend e.2 e.1 a) acc)).getD [] := by
  induction L generalizing acc with
  | nil => exact h
  | cons e t ih =>
      simp only [List.foldl_cons]
      refine ih (alistAppend e.2 e.1 acc) ?_
      by_cases hk : k = e.2
      · subst hk
        rw [alistGet_alistAppend_self]
        simp only [Option.getD_some]
        exact List.mem_append_left _ h
      · rw [alistGet_alistAppend_ne hk]
        exact h

theorem grouped_covers_aux {κ α : Type} [DecidableEq κ] (L : List (α × κ)) :
    ∀ (acc : List (κ × List α)) (x : α) (k : κ), (x, k) ∈ L →
      x ∈ (alistGet k (L.foldl (fun a e => alistAppend e.2 e.1 a) acc)).getD [] := by
  induction L with
  | nil => intro acc x k h; simp at h
  | cons e t ih =>
      intro acc x k h
      simp only [List.foldl_cons]
      rcases List.mem_cons.mp h with h | h
      · have hx : x ∈ (alistGet k (alistAppend e.2 e.1 acc)).getD [] := by
          have hk : k = e.2 := by rw [← h]
          have hx' : x = e.1 := by rw [← h]
          subst hk hx'
          rw [alistGet_alistAppend_self]
          simp
        exact grouped_persist t _ k x hx
      · exact ih (alistAppend e.2 e.1 acc) x k h

theorem grouped_covers {κ α : Type} [DecidableEq κ] {L : List (α × κ)}
    {x : α} {k : κ} (h : (x, k) ∈ L) :
    x ∈ (alistGet k (grouped L)).getD [] :=
  grouped_covers_aux L [] x k h

theorem mem_keys_alistAppend {κ α : Type} [DecidableEq κ] {j k : κ} {x : α}
    {l : List (κ × List α)} (h : j ∈ (alistAppend k x l).map Prod.fst) :
    j ∈ l.map Prod.fst ∨ j = k := by
  induction l with
  | nil =>
      right
      simpa [alistAppend] using h
  | cons e t ih =>
      obtain ⟨k0, xs0⟩ := e
      by_cases hk : k0 = k
      · subst hk
        rw [alistAppend, if_pos rfl] at h
        simp only [List.map_cons, List.mem_cons] at h ⊢
        rcases h with h | h
        · exact Or.inl (Or.inl h)
        · exact Or.inl (Or.inr h)
      · rw [alistAppend, if_neg hk] at h
        simp only [List.map_cons, List.mem_cons] at h
        rcases h with h | h
        · exact Or.inl (by simp [h])
        · rcases ih h with h | h
          · exact Or.inl (by simp [h])
          · exact Or.inr h

theorem nodup_keys_alistAppend {κ α : Type} [DecidableEq κ] (k : κ) (x : α)
    {l : List (κ × List α)} (h : (l.map Prod.fst).Nodup) :
    ((alistAppend k x l).map Prod.fst).Nodup := by
  induction l with
  | nil => simp [alistAppend]
  | cons e t ih =>
      obtain ⟨k0, xs0⟩ := e
      simp only [List.map_cons, List.nodup_cons] at h
      by_cases hk : k0 = k
      · subst hk
        rw [alistAppend, if_pos rfl]
        simp only [List.map_cons, List.nodup_cons]
        exact ⟨h.1, h.2⟩
      · rw [alistAppend, if_neg hk]
        simp only [List.map_cons, List.nodup_cons]
        refine ⟨?_, ih h.2⟩
        intro hmem
        rcases mem_keys_alistAppend hmem with hmem | hmem
        · exact h.1 hmem
        · exact hk hmem

theorem nodup_keys_grouped {κ α : Type} [DecidableEq κ] (L : List (α × κ)) :
    ((grouped L).map Prod.fst).Nodup := by
  suffices h : ∀ (acc : List (κ × List α)), (acc.map Prod.fst).Nodup →
      ((L.foldl (fun a e => alistAppend e.2 e.1 a) acc).map Prod.fst).Nodup by
    exact h [] (by simp)
  induction L with
  | nil => intro acc hacc; exact hacc
  | cons e t ih =>
      intro acc hacc
      simp only [List.foldl_cons]
      exact ih _ (nodup_keys_alistAppend e.2 e.1 hacc)

theorem grouped_nonempty {κ α : Type} [DecidableEq κ] (L : List (α × κ)) :
    ∀ k xs, (k, xs) ∈ grouped L → xs ≠ [] := by
  suffices h : ∀ (acc : List (κ × List α)), (∀ k xs, (k, xs) ∈ acc → xs ≠ []) →
      ∀ k xs, (k, xs) ∈ L.foldl (fun a e => alistAppend e.2 e.1 a) acc → xs ≠ [] by
    exact h [] (by simp)
  induction L with
  | nil => intro acc hacc; exact hacc
  | cons e t ih =>
      intro acc hacc
      simp only [List.foldl_cons]
      refine ih _ ?_
      intro k xs hmem
      rcases mem_alistAppend hmem with hmem | ⟨_, hxs⟩
      · exact hacc k xs hmem
      · subst hxs; simp

/-! ## The `map` snapshot contents -/

theorem occupiedList_mem {s : BoardState} {p : Pos} {v : String} :
    (p, v) ∈ occupiedList s ↔ ∃ sl, getCell s p = some sl ∧ sl.label = v := by
  constructor
  · intro h
    simp only [occupiedList, List.mem_flatMap] at h
    obtain ⟨r, _, h⟩ := h
    simp only [List.mem_filterMap] at h
    obtain ⟨c, _, h⟩ := h
    cases hcell : getCell s ⟨(r : Int), (c : Int)⟩ with
    | none => rw [hcell] at h; simp at h
    | some sl =>
        rw [hcell] at h
        simp only [Option.some.injEq, Prod.mk.injEq] at h
        exact ⟨sl, h.1 ▸ hcell, h.2⟩
  · rintro ⟨sl, hcell, hv⟩
    have hw := within_nonneg (getCell_some_within hcell)
    have hr : p.r.toNat < s.rows := by omega
    have hc : p.c.toNat < s.cols := by omega
    have hp : (⟨(p.r.toNat : Int), (p.c.toNat : Int)⟩ : Pos) = p := by
      rw [Int.toNat_of_nonneg hw.1, Int.toNat_of_nonneg hw.2.2.1]
    unfold occupiedList
    apply List.mem_flatMap.mpr
    refine ⟨p.r.toNat, List.mem_range.mpr hr, ?_⟩
    apply List.mem_filterMap.mpr
    refine ⟨p.c.toNat, List.mem_range.mpr hc, ?_⟩
    rw [hp]
    simp [hcell, hv]

/-! ## Pointwise description of the `map` commit -/

theorem relabelCell_idem (t : String → String) (sl : Slot) :
    { relabelCell t sl with label := t sl.label } = relabelCell t sl := by
  simp [relabelCell]

theorem relabelInv_applyAssign {t : String → String} {s st : BoardState}
    {a : Pos × String} (hinv : RelabelInv t s st)
    (hg : ∃ sl, getCell s a.1 = some sl ∧ a.2 = t sl.label) :
    RelabelInv t s (applyAssign st a) := by
  intro q
  by_cases hq : q = a.1
  · obtain ⟨sl, hsl, hla⟩ := hg
    rw [hq, applyAssign, getCell_modifyCell_self]
    rcases hinv a.1 with h | h
    · rw [h, hsl]
      right
      simp [relabelCell, hla]
    · rw [h, hsl]
      right
      simp only [Option.map_some']
      rw [hla, relabelCell_idem]
  · rw [applyAssign, getCell_modifyCell_ne hq]
    exact hinv q

theorem commit_fold_uncovered :
    ∀ (A : List (Pos × String)) (st : BoardState) (q : Pos),
      (∀ l, (q, l) ∉ A) →
      getCell (A.foldl applyAssign st) q = getCell st q := by
  intro A
  induction A with
  | nil => intro st q _; rfl
  | cons a A' ih =>
      intro st q h
      simp only [List.foldl_cons]
      rw [ih _ q (fun l hl => h l (List.mem_cons_of_mem _ hl))]
      have hq : q ≠ a.1 := by
        intro hq
        subst hq
        exact h a.2 (List.mem_cons_self _ _)
      exact getCell_modifyCell_ne hq _ st

theorem commit_fold_covered {t : String → String} {s : BoardState} :
    ∀ (A : List (Pos × String)) (st : BoardState),
      RelabelInv t s st → AssignsGraph t s A →
      ∀ q l, (q, l) ∈ A →
        getCell (A.foldl applyAssign st) q = (getCell s q).map (relabelCell t) := by
  intro A
  induction A with
  | nil => intro st _ _ q l h; simp at h
  | cons a A' ih =>
      intro st hinv hg q l h
      simp only [List.foldl_cons]
      have hg' : AssignsGraph t s A' := fun a' ha' => hg a' (List.mem_cons_of_mem _ ha')
      have hinv' : RelabelInv t s (applyAssign st a) :=
        relabelInv_applyAssign hinv (hg a (List.mem_cons_self _ _))
      by_cases hA' : ∃ l', (q, l') ∈ A'
      · obtain ⟨l', hl'⟩ := hA'
        exact ih _ hinv' hg' q l' hl'
      · push_neg at hA'
        rcases List.mem_cons.mp h with h | h
        · rw [commit_fold_uncovered A' _ q hA']
          have ha1 : a.1 = q := by rw [← h]
          obtain ⟨sl, hsl, hla⟩ := hg a (List.mem_cons_self _ _)
          rw [ha1] at hsl
          rw [applyAssign, ha1, getCell_modifyCell_self]
          rcases hinv q with hq | hq
          · rw [hq, hsl]
            simp [relabelCell, hla]
          · rw [hq, hsl]
            simp only [Option.map_some']
            rw [hla, relabelCell_idem]
        · exact absurd h (hA' l)

theorem foldl_assignsOf (t : String → String) (entries : List (String × List Pos)) :
    ∀ s : BoardState,
      (assignsOf t entries).foldl applyAssign s = commitMap t entries s := by
  induction entries with
  | nil => intro s; rfl
  | cons e es ih =>
      intro s
      simp only [assignsOf, List.flatMap_cons, List.foldl_append, commitMap,
        List.foldl_cons]
      rw [List.foldl_map]
      exact ih _

theorem assignsGraph_collect (t : String → String) (s : BoardState) :
    AssignsGraph t s (assignsOf t (collectByValue s)) := by
  intro a ha
  simp only [assignsOf, List.mem_flatMap] at ha
  obtain ⟨e, he, ha⟩ := ha
  simp only [List.mem_map] at ha
  obtain ⟨q, hq, rfl⟩ := ha
  have hocc : (q, e.1) ∈ occupiedList s := grouped_sound he hq
  rw [occupiedList_mem] at hocc
  obtain ⟨sl, hsl, hv⟩ := hocc
  exact ⟨sl, hsl, by rw [hv]⟩

theorem assigns_covers (t : String → String) (s : BoardState) {q : Pos} {sl : Slot}
    (h : getCell s q = some sl) :
    (q, t sl.label) ∈ assignsOf t (collectByValue s) := by
  have hmem : (q, sl.label) ∈ occupiedList s := occupiedList_mem.mpr ⟨sl, h, rfl⟩
  have hcov := grouped_covers hmem
  cases hga : alistGet sl.label (grouped (occupiedList s)) with
  | none => rw [hga] at hcov; simp at hcov
  | some xs =>
      rw [hga] at hcov
      simp only [Option.getD_some] at hcov
      have hentry : (sl.label, xs) ∈ collectByValue s := alistGet_mem hga
      simp only [assignsOf, List.mem_flatMap]
      refine ⟨(sl.label, xs), hentry, ?_⟩
      simp only [List.mem_map]
      exact ⟨q, hcov, rfl⟩

/-- The heart of the `map` commit: the committed grid is the original grid
with every occupied cell relabelled by the transformer — faces, controllers
and emptiness untouched. -/
theorem getCell_commitMap (t : String → String) (s : BoardState) (q : Pos) :
    getCell (commitMap t (collectByValue s) s) q
      = (getCell s q).map (relabelCell t) := by
  rw [← foldl_assignsOf]
  cases h : getCell s q with
  | some sl =>
      have hcov := assigns_covers t s h
      have := commit_fold_covered (assignsOf t (collectByValue s)) s
        (fun _ => Or.inl rfl) (assignsGraph_collect t s) q (t sl.label) hcov
      rw [this, h]
  | none =>
      rw [commit_fold_uncovered _ s q ?_]
      · rw [h]; rfl
      · intro l hl
        obtain ⟨sl, hsl, _⟩ := assignsGraph_collect t s (q, l) hl
        rw [h] at hsl
        exact Option.noConfusion hsl

theorem commit_fold_fields :
    ∀ (A : List (Pos × String)) (st : BoardState),
      (A.foldl applyAssign st).rows = st.rows ∧
      (A.foldl applyAssign st).cols = st.cols ∧
      (A.foldl applyAssign st).firstSelection = st.firstSelection ∧
      (A.foldl applyAssign st).pending = st.pending ∧
      (A.foldl applyAssign st).waitQueues = st.waitQueues ∧
      (A.foldl applyAssign st).watchers = st.watchers := by
  intro A
  induction A with
  | nil => intro st; exact ⟨rfl, rfl, rfl, rfl, rfl, rfl⟩
  | cons a A' ih =>
      intro st
      simp only [List.foldl_cons]
      obtain ⟨h1, h2, h3, h4, h5, h6⟩ := ih (applyAssign st a)
      rw [h1, h2, h3, h4, h5, h6]
      exact ⟨by simp [applyAssign], by simp [applyAssign], by simp [applyAssign],
        by simp [applyAssign], by simp [applyAssign], by simp [applyAssign]⟩

theorem commitMap_fields (t : String → String) (s : BoardState) :
    (commitMap t (collectByValue s) s).rows = s.rows ∧
    (commitMap t (collectByValue s) s).cols = s.cols ∧
    (commitMap t (collectByValue s) s).firstSelection = s.firstSelection ∧
    (commitMap t (collectByValue s) s).pending = s.pending ∧
    (commitMap t (collectByValue s) s).waitQueues = s.waitQueues ∧
    (commitMap t (collectByValue s) s).watchers = s.watchers := by
  rw [← foldl_assignsOf]
  exact commit_fold_fields _ s

/-! ## Bridging the `byValue` keys and the labels present on the board -/

theorem labelPresent_of_entry {s : BoardState} {v : String} {xs : List Pos}
    (h : (v, xs) ∈ collectByValue s) : labelPresent s v := by
  have hne := grouped_nonempty (occupiedList s) v xs h
  cases xs with
  | nil => exact absurd rfl hne
  | cons q qs =>
      have hocc : (q, v) ∈ occupiedList s :=
        grouped_sound h (List.mem_cons_self _ _)
      rw [occupiedList_mem] at hocc
      obtain ⟨sl, hsl, hv⟩ := hocc
      exact ⟨q, sl, hsl, hv⟩

theorem entry_of_labelPresent {s : BoardState} {v : String}
    (h : labelPresent s v) : ∃ xs, (v, xs) ∈ collectByValue s := by
  obtain ⟨q, sl, hsl, hv⟩ := h
  have hmem : (q, v) ∈ occupiedList s := occupiedList_mem.mpr ⟨sl, hsl, hv⟩
  have hcov := grouped_covers hmem
  cases hga : alistGet v (grouped (occupiedList s)) with
  | none => rw [hga] at hcov; simp at hcov
  | some xs => exact ⟨xs, alistGet_mem hga⟩

theorem invalid_any_iff (t : String → String) (s : BoardState) :
    ((collectByValue s).any fun e => invalidCard (t e.1)) = true ↔
      ∃ v, labelPresent s v ∧ invalidCard (t v) = true := by
  rw [List.any_eq_true]
  constructor
  · rintro ⟨e, he, hinv⟩
    exact ⟨e.1, labelPresent_of_entry (by exact he), hinv⟩
  · rintro ⟨v, hpres, hinv⟩
    obtain ⟨xs, hxs⟩ := entry_of_labelPresent hpres
    exact ⟨(v, xs), hxs, hinv⟩

theorem map_eq_of_invalid {t : String → String} {s : BoardState}
    (h : ((collectByValue s).any fun e => invalidCard (t e.1)) = true) :
    map t s = ⟨s, [], some .InvalidLabel⟩ := by
  simp [map, h]

theorem map_eq_of_valid {t : String → String} {s : BoardState}
    (h : ((collectByValue s).any fun e => invalidCard (t e.1)) = false) :
    map t s = ⟨commitMap t (collectByValue s) s, [], none⟩ := by
  simp [map, h]

theorem mapCards_eq_of_invalid {t : String → String} {s : BoardState}
    (h : ((collectByValue s).any fun e => invalidCard (t e.1)) = true) :
    mapCards t s = ⟨s, [], some .InvalidLabel⟩ := by
  simp [mapCards, h]

theorem map_err_of_valid {t : String → String} {s : BoardState}
    (h : ((collectByValue s).any fun e => invalidCard (t e.1)) = false) :
    (map t s).err = none := by
  rw [map_eq_of_valid h]

theorem map_state_of_valid {t : String → String} {s : BoardState}
    (h : ((collectByValue s).any fun e => invalidCard (t e.1)) = false) (q : Pos) :
    getCell (map t s).state q = (getCell s q).map (relabelCell t) := by
  rw [map_eq_of_valid h]
  exact getCell_commitMap t s q

theorem map_err_cases (t : String → String) (s : BoardState) :
    (map t s).err = none ∨ (map t s).err = some .InvalidLabel := by
  cases h : (collectByValue s).any fun e => invalidCard (t e.1)
  · exact Or.inl (map_err_of_valid h)
  · exact Or.inr (by rw [map_eq_of_invalid h])

/-! ## The `mapCards` commit: pointwise effect and the `changed` flag -/

theorem graphEntries_collect (s : BoardState) : GraphEntries s (collectByValue s) := by
  intro e he q hq
  have hocc : (q, e.1) ∈ occupiedList s := grouped_sound he hq
  rw [occupiedList_mem] at hocc
  exact hocc

theorem mapCardsWrite_getCell_ne {q p : Pos} (hne : q ≠ p) (nv : String)
    (acc : BoardState × Bool) :
    getCell (mapCardsWrite nv acc p).1 q = getCell acc.1 q := by
  unfold mapCardsWrite
  cases h : getCell acc.1 p with
  | none => rfl
  | some cell =>
      dsimp only
      by_cases hl : cell.label = nv
      · rw [if_neg (fun hk => hk hl)]
      · rw [if_pos hl]
        exact getCell_setCell_ne hne _ acc.1

theorem mapCardsWrite_fields (nv : String) (acc : BoardState × Bool) (p : Pos) :
    (mapCardsWrite nv acc p).1.rows = acc.1.rows ∧
    (mapCardsWrite nv acc p).1.cols = acc.1.cols ∧
    (mapCardsWrite nv acc p).1.firstSelection = acc.1.firstSelection ∧
    (mapCardsWrite nv acc p).1.pending = acc.1.pending ∧
    (mapCardsWrite nv acc p).1.waitQueues = acc.1.waitQueues ∧
    (mapCardsWrite nv acc p).1.watchers = acc.1.watchers := by
  unfold mapCardsWrite
  cases h : getCell acc.1 p with
  | none => exact ⟨rfl, rfl, rfl, rfl, rfl, rfl⟩
  | some cell =>
      dsimp only
      by_cases hl : cell.label = nv
      · rw [if_neg (fun hk => hk hl)]
        exact ⟨rfl, rfl, rfl, rfl, rfl, rfl⟩
      · rw [if_pos hl]
        exact ⟨by simp, by simp, by simp, by simp, by simp, by simp⟩

theorem mapCardsWrite_flag_mono {acc : BoardState × Bool} (nv : String) (p : Pos)
    (h : acc.2 = true) : (mapCardsWrite nv acc p).2 = true := by
  unfold mapCardsWrite
  cases hc : getCell acc.1 p with
  | none => exact h
  | some cell =>
      dsimp only
      by_cases hl : cell.label = nv
      · rw [if_neg (fun hk => hk hl)]
        exact h
      · rw [if_pos hl]

theorem mapCardsWrite_inv {t : String → String} {s : BoardState} {nv : String}
    {acc : BoardState × Bool} {p : Pos}
    (hinv : RelabelInv t s acc.1)
    (hg : ∃ sl, getCell s p = some sl ∧ nv = t sl.label) :
    RelabelInv t s (mapCardsWrite nv acc p).1 := by
  obtain ⟨sl, hsl, hnv⟩ := hg
  unfold mapCardsWrite
  cases hc : getCell acc.1 p with
  | none => exact hinv
  | some cell =>
      dsimp only
      by_cases hl : cell.label = nv
      · rw [if_neg (fun hk => hk hl)]
        exact hinv
      · rw [if_pos hl]
        intro q
        by_cases hq : q = p
        · subst hq
          rw [getCell_setCell_some_self hc]
          right
          rcases hinv q with h | h
          · rw [h, hsl] at hc
            injection hc with hc
            subst hc
            rw [hsl]
            simp [relabelCell, hnv]
          · rw [h, hsl] at hc
            simp only [Option.map_some'] at hc
            injection hc with hc
            subst hc
            rw [hsl]
            simp only [Option.map_some']
            rw [hnv, relabelCell_idem]
        · rw [getCell_setCell_ne hq]
          exact hinv q

theorem mapCardsWrite_keep {nv : String} {q : Pos} {rl : Slot}
    (hl : rl.label = nv) :
    ∀ (ps : List Pos) (acc : BoardState × Bool),
      getCell acc.1 q = some rl →
      getCell (ps.foldl (mapCardsWrite nv) acc).1 q = some rl := by
  intro ps
  induction ps with
  | nil => intro acc h; exact h
  | cons p ps' ih =>
      intro acc h
      simp only [List.foldl_cons]
      apply ih
      by_cases hq : q = p
      · subst hq
        unfold mapCardsWrite
        rw [h]
        dsimp only
        rw [if_neg (fun hk => hk hl)]
        exact h
      · rw [mapCardsWrite_getCell_ne hq]
        exact h

theorem mapCardsWrite_fold_ne {nv : String} {q : Pos} :
    ∀ (ps : List Pos) (acc : BoardState × Bool), q ∉ ps →
      getCell (ps.foldl (mapCardsWrite nv) acc).1 q = getCell acc.1 q := by
  intro ps
  induction ps with
  | nil => intro acc _; rfl
  | cons p ps' ih =>
      intro acc h
      simp only [List.foldl_cons]
      rw [ih _ (fun hm => h (List.mem_cons_of_mem _ hm))]
      exact mapCardsWrite_getCell_ne
        (fun hqp => h (by rw [hqp]; exact List.mem_cons_self _ _)) _ _

theorem mapCardsWrite_fold_inv {t : String → String} {s : BoardState} {nv : String} :
    ∀ (ps : List Pos) (acc : BoardState × Bool),
      RelabelInv t s acc.1 →
      (∀ p ∈ ps, ∃ sl, getCell s p = some sl ∧ nv = t sl.label) →
      RelabelInv t s (ps.foldl (mapCardsWrite nv) acc).1 := by
  intro ps
  induction ps with
  | nil => intro acc h _; exact h
  | cons p ps' ih =>
      intro acc hinv hg
      simp only [List.foldl_cons]
      exact ih _ (mapCardsWrite_inv hinv (hg p (List.mem_cons_self _ _)))
        (fun p' hp' => hg p' (List.mem_cons_of_mem _ hp'))

theorem mapCardsWrite_covered {t : String → String} {s : BoardState} {nv : String} :
    ∀ (ps : List Pos) (acc : BoardState × Bool) (q : Pos),
      RelabelInv t s acc.1 →
      (∀ p ∈ ps, ∃ sl, getCell s p = some sl ∧ nv = t sl.label) →
      q ∈ ps →
      getCell (ps.foldl (mapCardsWrite nv) acc).1 q
        = (getCell s q).map (relabelCell t) := by
  intro ps
  induction ps with
  | nil => intro acc q _ _ hq; simp at hq
  | cons p ps' ih =>
      intro acc q hinv hg hq
      simp only [List.foldl_cons]
      by_cases hq' : q ∈ ps'
      · exact ih _ q (mapCardsWrite_inv hinv (hg p (List.mem_cons_self _ _)))
          (fun p' hp' => hg p' (List.mem_cons_of_mem _ hp')) hq'
      · have hqp : q = p := by
          rcases List.mem_cons.mp hq with h | h
          · exact h
          · exact absurd h hq'
        subst hqp
        obtain ⟨sl, hsl, hnv⟩ := hg q (List.mem_cons_self _ _)
        have hstep : getCell (mapCardsWrite nv acc q).1 q = some (relabelCell t sl) := by
          rcases hinv q with h | h <;> rw [hsl] at h
          · unfold mapCardsWrite
            rw [h]
            dsimp only
            by_cases hl : sl.label = nv
            · rw [if_neg (fun hk => hk hl)]
              rw [h]
              have hid : relabelCell t sl = sl := by
                have ht : t sl.label = sl.label := by rw [← hnv, hl]
                simp [relabelCell, ht]
              rw [hid]
            · rw [if_pos hl]
              dsimp only
              rw [getCell_setCell_some_self h]
              have hrel : relabelCell t sl = { sl with label := nv } := by
                simp [relabelCell, ← hnv]
              rw [hrel]
          · simp only [Option.map_some'] at h
            unfold mapCardsWrite
            rw [h]
            dsimp only
            rw [if_neg (fun hk => hk (by simp [relabelCell, hnv]))]
            exact h
        rw [mapCardsWrite_keep (by simp [relabelCell, ← hnv]) ps' _ hstep, hsl]
        rfl

theorem mapCardsWrite_fold_fields (nv : String) :
    ∀ (ps : List Pos) (acc : BoardState × Bool),
      (ps.foldl (mapCardsWrite nv) acc).1.rows = acc.1.rows ∧
      (ps.foldl (mapCardsWrite nv) acc).1.cols = acc.1.cols ∧
      (ps.foldl (mapCardsWrite nv) acc).1.firstSelection = acc.1.firstSelection ∧
      (ps.foldl (mapCardsWrite nv) acc).1.pending = acc.1.pending ∧
      (ps.foldl (mapCardsWrite nv) acc).1.waitQueues = acc.1.waitQueues ∧
      (ps.foldl (mapCardsWrite nv) acc).1.watchers = acc.1.watchers := by
  intro ps
  induction ps with
  | nil => intro acc; exact ⟨rfl, rfl, rfl, rfl, rfl, rfl⟩
  | cons p ps' ih =>
      intro acc
      simp only [List.foldl_cons]
      obtain ⟨h1, h2, h3, h4, h5, h6⟩ := ih (mapCardsWrite nv acc p)
      obtain ⟨g1, g2, g3, g4, g5, g6⟩ := mapCardsWrite_fields nv acc p
      rw [h1, h2, h3, h4, h5, h6, g1, g2, g3, g4, g5, g6]
      exact ⟨rfl, rfl, rfl, rfl, rfl, rfl⟩

theorem mapCardsWrite_fold_mono (nv : String) :
    ∀ (ps : List Pos) (acc : BoardState × Bool), acc.2 = true →
      (ps.foldl (mapCardsWrite nv) acc).2 = true := by
  intro ps
  induction ps with
  | nil => intro acc h; exact h
  | cons p ps' ih =>
      intro acc h
      simp only [List.foldl_cons]
      exact ih _ (mapCardsWrite_flag_mono nv p h)

theorem mapCardsWrite_fires {nv : String} {p : Pos} {ps : List Pos}
    {acc : BoardState × Bool} {c : Slot}
    (hc : getCell acc.1 p = some c) (hl : ¬ c.label = nv) :
    (((p :: ps).foldl (mapCardsWrite nv)) acc).2 = true := by
  simp only [List.foldl_cons]
  apply mapCardsWrite_fold_mono
  unfold mapCardsWrite
  rw [hc]
  dsimp only
  rw [if_pos hl]

theorem mapCardsGroup_getCell_ne {t : String → String} {q : Pos}
    {e : String × List Pos} (hq : q ∉ e.2) (acc : BoardState × Bool) :
    getCell (mapCardsGroup t acc e).1 q = getCell acc.1 q := by
  unfold mapCardsGroup
  split
  · rfl
  · exact mapCardsWrite_fold_ne e.2 acc hq

theorem mapCardsGroup_inv {t : String → String} {s : BoardState}
    {acc : BoardState × Bool} {e : String × List Pos}
    (hinv : RelabelInv t s acc.1)
    (hg : ∀ q ∈ e.2, ∃ sl, getCell s q = some sl ∧ sl.label = e.1) :
    RelabelInv t s (mapCardsGroup t acc e).1 := by
  unfold mapCardsGroup
  split
  · exact hinv
  · refine mapCardsWrite_fold_inv e.2 acc hinv (fun p hp => ?_)
    obtain ⟨sl, hsl, hlab⟩ := hg p hp
    exact ⟨sl, hsl, by rw [hlab]⟩

theorem mapCardsGroup_fold_ne {t : String → String} {q : Pos} :
    ∀ (entries : List (String × List Pos)) (acc : BoardState × Bool),
      (∀ e ∈ entries, q ∉ e.2) →
      getCell (entries.foldl (mapCardsGroup t) acc).1 q = getCell acc.1 q := by
  intro entries
  induction entries with
  | nil => intro acc _; rfl
  | cons e es ih =>
      intro acc h
      simp only [List.foldl_cons]
      rw [ih _ (fun e' he' => h e' (List.mem_cons_of_mem _ he'))]
      exact mapCardsGroup_getCell_ne (h e (List.mem_cons_self _ _)) acc

theorem mapCardsGroup_fold_keep {t : String → String} {s : BoardState} {q : Pos} :
    ∀ (entries : List (String × List Pos)) (acc : BoardState × Bool),
      GraphEntries s entries →
      getCell acc.1 q = (getCell s q).map (relabelCell t) →
      getCell (entries.foldl (mapCardsGroup t) acc).1 q
        = (getCell s q).map (relabelCell t) := by
  intro entries
  induction entries with
  | nil => intro acc _ h; exact h
  | cons e es ih =>
      intro acc hg h
      simp only [List.foldl_cons]
      apply ih _ (fun e' he' => hg e' (List.mem_cons_of_mem _ he'))
      by_cases hq : q ∈ e.2
      · obtain ⟨sl, hsl, hlab⟩ := hg e (List.mem_cons_self _ _) q hq
        rw [hsl] at h
        simp only [Option.map_some'] at h
        unfold mapCardsGroup
        split
        · rw [h, hsl]
          rfl
        · have hk : (relabelCell t sl).label = t e.1 := by simp [relabelCell, hlab]
          rw [mapCardsWrite_keep hk e.2 acc h, hsl]
          rfl
      · unfold mapCardsGroup
        split
        · exact h
        · rw [mapCardsWrite_fold_ne e.2 acc hq]
          exact h

theorem mapCardsGroup_fold_covered {t : String → String} {s : BoardState} :
    ∀ (entries : List (String × List Pos)) (acc : BoardState × Bool),
      RelabelInv t s acc.1 →
      GraphEntries s entries →
      ∀ e ∈ entries, ∀ q ∈ e.2,
        getCell (entries.foldl (mapCardsGroup t) acc).1 q
          = (getCell s q).map (relabelCell t) := by
  intro entries
  induction entries with
  | nil => intro acc _ _ e he; simp at he
  | cons e0 es ih =>
      intro acc hinv hg e he q hq
      simp only [List.foldl_cons]
      have hg' : GraphEntries s es := fun e' he' => hg e' (List.mem_cons_of_mem _ he')
      by_cases hq0 : q ∈ e0.2
      · obtain ⟨sl, hsl, hlab⟩ := hg e0 (List.mem_cons_self _ _) q hq0
        apply mapCardsGroup_fold_keep es _ hg'
        unfold mapCardsGroup
        split
        · rename_i hskip
          rcases hinv q with h | h
          · rw [h, hsl]
            simp only [Option.map_some']
            have hid : relabelCell t sl = sl := by
              have ht : t sl.label = sl.label := by rw [hlab, hskip]
              simp [relabelCell, ht]
            rw [hid]
          · exact h
        · refine mapCardsWrite_covered e0.2 acc q hinv (fun p hp => ?_) hq0
          obtain ⟨sl', hsl', hlab'⟩ := hg e0 (List.mem_cons_self _ _) p hp
          exact ⟨sl', hsl', by rw [hlab']⟩
      · have he' : e ∈ es := by
          rcases List.mem_cons.mp he with h | h
          · subst h; exact absurd hq hq0
          · exact h
        exact ih _ (mapCardsGroup_inv hinv (hg e0 (List.mem_cons_self _ _))) hg' e he' q hq

theorem mapCardsGroup_fold_skip {t : String → String} :
    ∀ (entries : List (String × List Pos)) (acc : BoardState × Bool),
      (∀ e ∈ entries, t e.1 = e.1) →
      entries.foldl (mapCardsGroup t) acc = acc := by
  intro entries
  induction entries with
  | nil => intro acc _; rfl
  | cons e es ih =>
      intro acc h
      simp only [List.foldl_cons]
      have hstep : mapCardsGroup t acc e = acc := by
        unfold mapCardsGroup
        rw [if_pos (h e (List.mem_cons_self _ _))]
      rw [hstep]
      exact ih _ (fun e' he' => h e' (List.mem_cons_of_mem _ he'))

theorem mapCardsGroup_flag_mono {t : String → String} {acc : BoardState × Bool}
    (e : String × List Pos) (h : acc.2 = true) : (mapCardsGroup t acc e).2 = true := by
  unfold mapCardsGroup
  split
  · exact h
  · exact mapCardsWrite_fold_mono _ e.2 acc h

theorem mapCardsGroup_fold_mono {t : String → String} :
    ∀ (entries : List (String × List Pos)) (acc : BoardState × Bool),
      acc.2 = true → (entries.foldl (mapCardsGroup t) acc).2 = true := by
  intro entries
  induction entries with
  | nil => intro acc h; exact h
  | cons e es ih =>
      intro acc h
      simp only [List.foldl_cons]
      exact ih _ (mapCardsGroup_flag_mono e h)

theorem mapCardsGroup_fold_fires {t : String → String} {s : BoardState} :
    ∀ (entries : List (String × List Pos)) (acc : BoardState × Bool),
      GraphEntries s entries →
      (∀ e ∈ entries, ∀ p ∈ e.2, getCell acc.1 p = getCell s p) →
      (∀ e ∈ entries, e.2 ≠ []) →
      (∃ e ∈ entries, t e.1 ≠ e.1) →
      (entries.foldl (mapCardsGroup t) acc).2 = true := by
  intro entries
  induction entries with
  | nil => intro acc _ _ _ hw; simp at hw
  | cons e0 es ih =>
      intro acc hg horig hne hw
      simp only [List.foldl_cons]
      by_cases hskip : t e0.1 = e0.1
      · have hstep : mapCardsGroup t acc e0 = acc := by
          unfold mapCardsGroup
          rw [if_pos hskip]
        rw [hstep]
        apply ih acc (fun e' he' => hg e' (List.mem_cons_of_mem _ he'))
          (fun e' he' => horig e' (List.mem_cons_of_mem _ he'))
          (fun e' he' => hne e' (List.mem_cons_of_mem _ he'))
        obtain ⟨e, he, het⟩ := hw
        rcases List.mem_cons.mp he with h | h
        · subst h; exact absurd hskip het
        · exact ⟨e, h, het⟩
      · apply mapCardsGroup_fold_mono es _
        have hstep : mapCardsGroup t acc e0 = e0.2.foldl (mapCardsWrite (t e0.1)) acc := by
          unfold mapCardsGroup
          rw [if_neg hskip]
        rw [hstep]
        cases hps : e0.2 with
        | nil => exact absurd hps (hne e0 (List.mem_cons_self _ _))
        | cons p ps =>
            obtain ⟨sl, hsl, hlab⟩ := hg e0 (List.mem_cons_self _ _) p
              (by rw [hps]; exact List.mem_cons_self _ _)
            have hcell : getCell acc.1 p = some sl := by
              rw [horig e0 (List.mem_cons_self _ _) p
                (by rw [hps]; exact List.mem_cons_self _ _)]
              exact hsl
            exact mapCardsWrite_fires hcell (fun h => hskip (h ▸ hlab))

theorem mapCardsGroup_fields {t : String → String} (acc : BoardState × Bool)
    (e : String × List Pos) :
    (mapCardsGroup t acc e).1.rows = acc.1.rows ∧
    (mapCardsGroup t acc e).1.cols = acc.1.cols ∧
    (mapCardsGroup t acc e).1.firstSelection = acc.1.firstSelection ∧
    (mapCardsGroup t acc e).1.pending = acc.1.pending ∧
    (mapCardsGroup t acc e).1.waitQueues = acc.1.waitQueues ∧
    (mapCardsGroup t acc e).1.watchers = acc.1.watchers := by
  unfold mapCardsGroup
  split
  · exact ⟨rfl, rfl, rfl, rfl, rfl, rfl⟩
  · exact mapCardsWrite_fold_fields _ e.2 acc

theorem mapCardsGroup_fold_fields {t : String → String} :
    ∀ (entries : List (String × List Pos)) (acc : BoardState × Bool),
      (entries.foldl (mapCardsGroup t) acc).1.rows = acc.1.rows ∧
      (entries.foldl (mapCardsGroup t) acc).1.cols = acc.1.cols ∧
      (entries.foldl (mapCardsGroup t) acc).1.firstSelection = acc.1.firstSelection ∧
      (entries.foldl (mapCardsGroup t) acc).1.pending = acc.1.pending ∧
      (entries.foldl (mapCardsGroup t) acc).1.waitQueues = acc.1.waitQueues ∧
      (entries.foldl (mapCardsGroup t) acc).1.watchers = acc.1.watchers := by
  intro entries
  induction entries with
  | nil => intro acc; exact ⟨rfl, rfl, rfl, rfl, rfl, rfl⟩
  | cons e es ih =>
      intro acc
      simp only [List.foldl_cons]
      obtain ⟨h1, h2, h3, h4, h5, h6⟩ := ih (mapCardsGroup t acc e)
      obtain ⟨g1, g2, g3, g4, g5, g6⟩ := mapCardsGroup_fields acc e
      rw [h1, h2, h3, h4, h5, h6, g1, g2, g3, g4, g5, g6]
      exact ⟨rfl, rfl, rfl, rfl, rfl, rfl⟩

/-- The heart of the `mapCards` commit: the committed grid is, exactly like
for `map`, the original grid with every occupied cell relabelled. -/
theorem getCell_commitMapCards (t : String → String) (s : BoardState) (q : Pos) :
    getCell (commitMapCards t (collectByValue s) s).1 q
      = (getCell s q).map (relabelCell t) := by
  unfold commitMapCards
  cases h : getCell s q with
  | some sl =>
      have hmem : (q, sl.label) ∈ occupiedList s := occupiedList_mem.mpr ⟨sl, h, rfl⟩
      have hcov := grouped_covers hmem
      cases hga : alistGet sl.label (grouped (occupiedList s)) with
      | none => rw [hga] at hcov; simp at hcov
      | some xs =>
          rw [hga] at hcov
          simp only [Option.getD_some] at hcov
          have hentry : (sl.label, xs) ∈ collectByValue s := alistGet_mem hga
          have hres := mapCardsGroup_fold_covered (collectByValue s) (s, false)
            (show RelabelInv t s (s, false).1 from fun _ => Or.inl rfl)
            (graphEntries_collect s) (sl.label, xs) hentry q hcov
          rw [hres, h]
  | none =>
      have hnone : ∀ e ∈ collectByValue s, q ∉ e.2 := by
        intro e he hq
        obtain ⟨sl, hsl, _⟩ := graphEntries_collect s e he q hq
        rw [h] at hsl
        exact Option.noConfusion hsl
      rw [mapCardsGroup_fold_ne (collectByValue s) (s, false) hnone]
      dsimp only
      rw [h]
      rfl

theorem commitMapCards_fields (t : String → String) (s : BoardState) :
    (commitMapCards t (collectByValue s) s).1.rows = s.rows ∧
    (commitMapCards t (collectByValue s) s).1.cols = s.cols ∧
    (commitMapCards t (collectByValue s) s).1.firstSelection = s.firstSelection ∧
    (commitMapCards t (collectByValue s) s).1.pending = s.pending ∧
    (commitMapCards t (collectByValue s) s).1.waitQueues = s.waitQueues ∧
    (commitMapCards t (collectByValue s) s).1.watchers = s.watchers := by
  unfold commitMapCards
  exact mapCardsGroup_fold_fields (collectByValue s) (s, false)

/-- The `changed` flag of the `mapCards` commit is set exactly when the
transformer moves some label present on the board. -/
theorem commitMapCards_flag_iff (t : String → String) (s : BoardState) :
    (commitMapCards t (collectByValue s) s).2 = true ↔ labelActuallyChanges t s := by
  unfold commitMapCards
  constructor
  · intro h
    by_contra hno
    have hall : ∀ e ∈ collectByValue s, t e.1 = e.1 := by
      intro e he
      by_contra het
      exact hno ⟨e.1, labelPresent_of_entry he, het⟩
    rw [mapCardsGroup_fold_skip (collectByValue s) (s, false) hall] at h
    simp at h
  · rintro ⟨v, hpres, hv⟩
    obtain ⟨xs, hxs⟩ := entry_of_labelPresent hpres
    exact mapCardsGroup_fold_fires (collectByValue s) (s, false)
      (graphEntries_collect s) (fun e _ p _ => rfl)
      (fun e he => grouped_nonempty (occupiedList s) e.1 e.2 he)
      ⟨(v, xs), hxs, hv⟩

/-! ## Component lemmas for the wake, notify and cleanup helpers -/

theorem getCell_congr {s' s : BoardState} (h1 : s'.rows = s.rows)
    (h2 : s'.cols = s.cols) (h3 : s'.grid = s.grid) (q : Pos) :
    getCell s' q = getCell s q := by
  unfold getCell within
  rw [h1, h2, h3]

@[simp] theorem wakeNext_fst_rows (p : Pos) (s : BoardState) :
    (wakeNext p s).1.rows = s.rows := by
  unfold wakeNext; split <;> rfl

@[simp] theorem wakeNext_fst_cols (p : Pos) (s : BoardState) :
    (wakeNext p s).1.cols = s.cols := by
  unfold wakeNext; split <;> rfl

@[simp] theorem wakeNext_fst_grid (p : Pos) (s : BoardState) :
    (wakeNext p s).1.grid = s.grid := by
  unfold wakeNext; split <;> rfl

@[simp] theorem wakeNext_fst_firstSelection (p : Pos) (s : BoardState) :
    (wakeNext p s).1.firstSelection = s.firstSelection := by
  unfold wakeNext; split <;> rfl

@[simp] theorem wakeNext_fst_pending (p : Pos) (s : BoardState) :
    (wakeNext p s).1.pending = s.pending := by
  unfold wakeNext; split <;> rfl

@[simp] theorem wakeNext_fst_watchers (p : Pos) (s : BoardState) :
    (wakeNext p s).1.watchers = s.watchers := by
  unfold wakeNext; split <;> rfl

@[simp] theorem wakeNext_getCell (p : Pos) (s : BoardState) (q : Pos) :
    getCell (wakeNext p s).1 q = getCell s q :=
  getCell_congr (by simp) (by simp) (by simp) q

theorem queueAt_wakeNext_self (p : Pos) (s : BoardState) :
    queueAt (wakeNext p s).1 p = (queueAt s p).tail := by
  unfold wakeNext
  cases h : queueAt s p with
  | nil => simp [h]
  | cons w rest => simp [queueAt, alistGet_set_self]

theorem queueAt_wakeNext_ne {p q : Pos} (h : q ≠ p) (s : BoardState) :
    queueAt (wakeNext p s).1 q = queueAt s q := by
  unfold wakeNext
  cases hq : queueAt s p with
  | nil => rfl
  | cons w rest => simp [queueAt, alistGet_set_ne h]

theorem wakeNext_snd (p : Pos) (s : BoardState) :
    (wakeNext p s).2 = match queueAt s p with
      | [] => []
      | w :: _ => [BEvent.wake p w] := by
  unfold wakeNext
  cases queueAt s p <;> rfl

@[simp] theorem notifyChange_fst_rows (s : BoardState) :
    (notifyChange s).1.rows = s.rows := by
  unfold notifyChange; split <;> rfl

@[simp] theorem notifyChange_fst_cols (s : BoardState) :
    (notifyChange s).1.cols = s.cols := by
  unfold notifyChange; split <;> rfl

@[simp] theorem notifyChange_fst_grid (s : BoardState) :
    (notifyChange s).1.grid = s.grid := by
  unfold notifyChange; split <;> rfl

@[simp] theorem notifyChange_fst_firstSelection (s : BoardState) :
    (notifyChange s).1.firstSelection = s.firstSelection := by
  unfold notifyChange; split <;> rfl

@[simp] theorem notifyChange_fst_pending (s : BoardState) :
    (notifyChange s).1.pending = s.pending := by
  unfold notifyChange; split <;> rfl

@[simp] theorem notifyChange_fst_waitQueues (s : BoardState) :
    (notifyChange s).1.waitQueues = s.waitQueues := by
  unfold notifyChange; split <;> rfl

@[simp] theorem notifyChange_getCell (s : BoardState) (q : Pos) :
    getCell (notifyChange s).1 q = getCell s q :=
  getCell_congr (by simp) (by simp) (by simp) q

@[simp] theorem settleFlipDown_fst_rows (q : Pos) (s : BoardState) :
    (settleFlipDown q s).1.rows = s.rows := by
  unfold settleFlipDown; split
  · split <;> simp
  · rfl

@[simp] theorem settleFlipDown_fst_cols (q : Pos) (s : BoardState) :
    (settleFlipDown q s).1.cols = s.cols := by
  unfold settleFlipDown; split
  · split <;> simp
  · rfl

@[simp] theorem settleFlipDown_fst_firstSelection (q : Pos) (s : BoardState) :
    (settleFlipDown q s).1.firstSelection = s.firstSelection := by
  unfold settleFlipDown; split
  · split <;> simp
  · rfl

@[simp] theorem settleFlipDown_fst_pending (q : Pos) (s : BoardState) :
    (settleFlipDown q s).1.pending = s.pending := by
  unfold settleFlipDown; split
  · split <;> simp
  · rfl

@[simp] theorem settleFlipDown_fst_waitQueues (q : Pos) (s : BoardState) :
    (settleFlipDown q s).1.waitQueues = s.waitQueues := by
  unfold settleFlipDown; split
  · split <;> simp
  · rfl

@[simp] theorem settleFlipDown_fst_watchers (q : Pos) (s : BoardState) :
    (settleFlipDown q s).1.watchers = s.watchers := by
  unfold settleFlipDown; split
  · split <;> simp
  · rfl

theorem settle_none {p : String} {s : BoardState} (h : pendingOf s p = none) :
    settleBeforeNewFirstMove p s = (s, []) := by
  unfold settleBeforeNewFirstMove
  rw [h]

@[simp] theorem settle_fst_rows (p : String) (s : BoardState) :
    (settleBeforeNewFirstMove p s).1.rows = s.rows := by
  unfold settleBeforeNewFirstMove
  split
  · simp
  · simp
  · dsimp only
    split <;> simp

@[simp] theorem settle_fst_cols (p : String) (s : BoardState) :
    (settleBeforeNewFirstMove p s).1.cols = s.cols := by
  unfold settleBeforeNewFirstMove
  split
  · simp
  · simp
  · dsimp only
    split <;> simp

@[simp] theorem settle_within (p : String) (s : BoardState) (q : Pos) :
    within (settleBeforeNewFirstMove p s).1 q = within s q := by
  unfold within
  rw [settle_fst_rows, settle_fst_cols]

@[simp] theorem settle_fst_firstSelection (p : String) (s : BoardState) :
    (settleBeforeNewFirstMove p s).1.firstSelection = s.firstSelection := by
  unfold settleBeforeNewFirstMove
  split
  · simp
  · simp
  · dsimp only
    split <;> simp

@[simp] theorem queueAt_setCell (p : Pos) (v : Option Slot) (s : BoardState) (q : Pos) :
    queueAt (setCell p v s) q = queueAt s q := by
  unfold queueAt
  rw [setCell_waitQueues]

/-! ## Characterizations of the flip operations -/

theorem flipFirst_fail (pos : Pos) (pl : String) (s : BoardState) :
    (flipFirst pos pl s).err.isSome = true →
    (flipFirst pos pl s).state = (settleBeforeNewFirstMove pl s).1 ∧
    (flipFirst pos pl s).evs = (settleBeforeNewFirstMove pl s).2 := by
  unfold flipFirst
  dsimp only
  cases hw : within (settleBeforeNewFirstMove pl s).1 pos
  · intro _
    constructor <;> trivial
  · cases hcell : getCell (settleBeforeNewFirstMove pl s).1 pos with
    | none =>
        intro _
        exact ⟨rfl, rfl⟩
    | some slot =>
        cases hf : slot.faceUp
        · intro hcontra
          simp [hf] at hcontra
        · by_cases hc : slot.controller = none ∨ slot.controller = some pl
          · intro hcontra
            simp [hf, hc] at hcontra
          · intro _
            simp only [hf, hc, Bool.not_true, Bool.false_eq_true, if_false]
            constructor <;> trivial

theorem flipFirst_oob {pos : Pos} {pl : String} {s : BoardState}
    (hw : within s pos = false) :
    flipFirst pos pl s =
      ⟨(settleBeforeNewFirstMove pl s).1, (settleBeforeNewFirstMove pl s).2,
        some .OutOfBounds⟩ := by
  unfold flipFirst
  dsimp only
  rw [settle_within pl s pos, hw]
  rfl

theorem relinquish_spec {pl : String} {s : BoardState} {first : Pos} {sl : Slot}
    (hfs : alistGet pl s.firstSelection = some first)
    (hsl : getCell s first = some sl) :
    relinquishFirstOnly pl s =
      ⟨{ (wakeNext first (setCell first (some { sl with controller := none }) s)).1 with
          firstSelection := alistErase pl s.firstSelection },
        (wakeNext first (setCell first (some { sl with controller := none }) s)).2,
        none⟩ := by
  unfold relinquishFirstOnly
  simp only [hfs, getCell_some_within hsl, if_true, hsl, wakeNext_fst_firstSelection,
    setCell_firstSelection]

theorem flipSecond_noFirst {pos : Pos} {pl : String} {s : BoardState}
    (hfs : alistGet pl s.firstSelection = none) :
    flipSecond pos pl s = ⟨s, [], some .NoFirst⟩ := by
  unfold flipSecond
  rw [hfs]

theorem flipSecond_2A {pos : Pos} {pl : String} {s : BoardState} {first : Pos}
    {sl : Slot} (hfs : alistGet pl s.firstSelection = some first)
    (hsl : getCell s first = some sl)
    (hpos : (if within s pos then getCell s pos else none) = none) :
    flipSecond pos pl s =
      ⟨(relinquishFirstOnly pl s).state, (relinquishFirstOnly pl s).evs,
        some .EmptyTarget⟩ := by
  unfold flipSecond
  simp only [hfs, hpos, relinquish_spec hfs hsl, Option.isSome_none,
    Bool.false_eq_true, if_false]

theorem flipSecond_2B {pos : Pos} {pl : String} {s : BoardState} {first : Pos}
    {sl1 sl2 : Slot} (hfs : alistGet pl s.firstSelection = some first)
    (hsl1 : getCell s first = some sl1)
    (hpos : getCell s pos = some sl2)
    (hface : sl2.faceUp = true) (hctrl : sl2.controller.isSome = true) :
    flipSecond pos pl s =
      ⟨(relinquishFirstOnly pl s).state, (relinquishFirstOnly pl s).evs,
        some .SecondContested⟩ := by
  unfold flipSecond
  simp only [hfs, getCell_some_within hpos, if_true, hpos, hface, hctrl,
    Bool.and_self, relinquish_spec hfs hsl1, Option.isSome_none,
    Bool.false_eq_true, if_false]

@[simp] theorem queueAt_notifyChange (s : BoardState) (q : Pos) :
    queueAt (notifyChange s).1 q = queueAt s q := by
  unfold queueAt
  rw [notifyChange_fst_waitQueues]

theorem within_congr {s' s : BoardState} (h1 : s'.rows = s.rows)
    (h2 : s'.cols = s.cols) (q : Pos) : within s' q = within s q := by
  unfold within
  rw [h1, h2]

theorem notifyChange_snd_filter (s : BoardState) :
    ((notifyChange s).2.filter fun e => !isBroadcastEvent e) = [] := by
  unfold notifyChange
  split <;> simp [isBroadcastEvent]

@[simp] theorem getCell_withPending (x : BoardState) (y : List (String × Option PendingOutcome))
    (q : Pos) : getCell { x with pending := y } q = getCell x q :=
  getCell_congr rfl rfl rfl q

@[simp] theorem queueAt_withPending (x : BoardState)
    (y : List (String × Option PendingOutcome)) (q : Pos) :
    queueAt { x with pending := y } q = queueAt x q := rfl

@[simp] theorem within_withPending (x : BoardState)
    (y : List (String × Option PendingOutcome)) (q : Pos) :
    within { x with pending := y } q = within x q := rfl

@[simp] theorem within_wakeNext (p : Pos) (s : BoardState) (q : Pos) :
    within (wakeNext p s).1 q = within s q :=
  within_congr (by simp) (by simp) q

@[simp] theorem within_notifyChange (s : BoardState) (q : Pos) :
    within (notifyChange s).1 q = within s q :=
  within_congr (by simp) (by simp) q

theorem flipFirstAttempt_empty {S : BoardState} {q : Pos} (hW : within S q = true)
    (hC : getCell S q = none) (w : String) :
    flipFirstAttempt q w S = .inl ⟨S, [], some .EmptySpace⟩ := by
  unfold flipFirstAttempt
  rw [hW, hC]
  rfl

theorem settle_matched {p : String} {s : BoardState} {a b : Pos}
    (h : pendingOf s p = some (.matched a b)) :
    settleBeforeNewFirstMove p s =
      (let s2 := setCell b none (setCell a none s)
       let w1 := wakeNext a s2
       let w2 := wakeNext b w1.1
       let n := notifyChange w2.1
       ({ n.1 with pending := alistSet p none n.1.pending }, w1.2 ++ w2.2 ++ n.2)) := by
  unfold settleBeforeNewFirstMove
  rw [h]

/-! ## Counterexamples to the claims the source refutes -/

/-- C1 counterexample: with a pending `Matched{(0,0),(0,1)}` and two waiters
queued on (0,0), `settleBeforeNewFirstMove` does remove both cells but
wakes only the FIFO head (`bob`), emitting a single plain wake per position;
`carol` is left queued, contradicting "wakes every waiter … none is left
queued". -/
theorem C1_counterexample :
    pendingOf twoWaiterBoard "p" = some (.matched ⟨0, 0⟩ ⟨0, 1⟩) ∧
    queueAt twoWaiterBoard ⟨0, 0⟩ = ["bob", "carol"] ∧
    getCell (settleBeforeNewFirstMove "p" twoWaiterBoard).1 ⟨0, 0⟩ = none ∧
    getCell (settleBeforeNewFirstMove "p" twoWaiterBoard).1 ⟨0, 1⟩ = none ∧
    queueAt (settleBeforeNewFirstMove "p" twoWaiterBoard).1 ⟨0, 0⟩ = ["carol"] ∧
    (settleBeforeNewFirstMove "p" twoWaiterBoard).2 = [.wake ⟨0, 0⟩ "bob"] := by
  decide

/-- C2 counterexample: a `map` call that rewrites every label while `bob` is
enqueued as a watcher succeeds, changes the label at (0,0) from `a` to `z`,
yet wakes no watcher and leaves the watcher set untouched — `map` never
broadcasts (only the `mapCards` variant does). -/
theorem C2_counterexample :
    (map (fun _ => "z") watcherBoard).err = none ∧
    getCell watcherBoard ⟨0, 0⟩ = some ⟨"a", false, none⟩ ∧
    getCell (map (fun _ => "z") watcherBoard).state ⟨0, 0⟩ = some ⟨"z", false, none⟩ ∧
    (map (fun _ => "z") watcherBoard).state.watchers = ["bob"] ∧
    (map (fun _ => "z") watcherBoard).evs = [] := by
  decide

/-- C3 counterexample: `flipSecond` at the out-of-bounds position (0,-1)
(while `alice` has a first selection) fails `EmptyTarget` (rule 2-A), not
`OutOfBounds`: the source folds an out-of-bounds second position into the
Empty case via `this.within(pos) ? this.getCell(...) : null`. -/
theorem C3_counterexample :
    within firstSelBoard ⟨0, -1⟩ = false ∧
    (flipSecond ⟨0, -1⟩ "alice" firstSelBoard).err = some .EmptyTarget ∧
    (flipSecond ⟨0, -1⟩ "alice" firstSelBoard).err ≠ some .OutOfBounds := by
  decide

/-- C4 counterexample: a failing `flipFirst` call is not side-effect free:
with a pending `Matched` outcome, `flipFirst` at an out-of-bounds position
fails `OutOfBounds` but has already run the 3-A cleanup, so the cell grid
has changed. -/
theorem C4_counterexample :
    (flipFirst ⟨0, 5⟩ "alice" pendingMatchedBoard).err = some .OutOfBounds ∧
    getCell pendingMatchedBoard ⟨0, 0⟩ ≠ none ∧
    getCell (flipFirst ⟨0, 5⟩ "alice" pendingMatchedBoard).state ⟨0, 0⟩ = none := by
  decide

/-! ## Claim theorems: the `map` family -/

/-- C10: `map` imposes no injectivity on the transform: a transformer that
sends the two distinct labels `a` and `b` to the same valid label `z`
succeeds, and afterwards both cells hold the shared label `z`, so two cells
that did not match before the call match after it. -/
theorem C10_map_allows_label_merging :
    getCell plainBoard ⟨0, 0⟩ = some ⟨"a", false, none⟩ ∧
    getCell plainBoard ⟨0, 1⟩ = some ⟨"b", false, none⟩ ∧
    (map (fun _ => "z") plainBoard).err = none ∧
    getCell (map (fun _ => "z") plainBoard).state ⟨0, 0⟩ = some ⟨"z", false, none⟩ ∧
    getCell (map (fun _ => "z") plainBoard).state ⟨0, 1⟩ = some ⟨"z", false, none⟩ := by
  decide

/-- C6: if the transformer yields an empty or whitespace-bearing result for
some label present on the board, `map` (and likewise `mapCards`) fails
`InvalidLabel` and returns with the state — hence every cell label —
exactly as before the call. -/
theorem C6_invalid_transform_rejected (s : BoardState) (t : String → String)
    (h : ∃ v, labelPresent s v ∧ invalidCard (t v) = true) :
    (map t s).err = some .InvalidLabel ∧ (map t s).state = s ∧
    (mapCards t s).err = some .InvalidLabel ∧ (mapCards t s).state = s := by
  have hany := (invalid_any_iff t s).mpr h
  rw [map_eq_of_invalid hany, mapCards_eq_of_invalid hany]
  exact ⟨rfl, rfl, rfl, rfl⟩

/-- Witness for C6: a whitespace-producing transformer on the fresh 1×2
board is rejected with the board untouched. -/
theorem C6_invalid_transform_rejected_witness :
    (map (fun _ => "a b") plainBoard).err = some .InvalidLabel ∧
    (map (fun _ => "a b") plainBoard).state = plainBoard ∧
    (mapCards (fun _ => "a b") plainBoard).err = some .InvalidLabel ∧
    (mapCards (fun _ => "a b") plainBoard).state = plainBoard :=
  C6_invalid_transform_rejected plainBoard _
    ⟨"a", ⟨⟨0, 0⟩, ⟨"a", false, none⟩, by decide, rfl⟩, by decide⟩

/-- C7: within one `map` call the transformer is evaluated once per entry of
`transformCalls s` — a duplicate-free list holding exactly the labels
present on the board — and after a successful `map`, any two still-occupied
cells that originally shared a label still hold equal labels. -/
theorem C7_transform_once_and_groups_agree (s : BoardState) (t : String → String) :
    (transformCalls s).Nodup ∧
    (∀ v, v ∈ transformCalls s ↔ labelPresent s v) ∧
    ((map t s).err = none →
      ∀ p q slp slq, getCell s p = some slp → getCell s q = some slq →
        slp.label = slq.label →
        (getCell (map t s).state p).map Slot.label
          = (getCell (map t s).state q).map Slot.label ∧
        (getCell (map t s).state p).isSome = true) := by
  refine ⟨nodup_keys_grouped _, ?_, ?_⟩
  · intro v
    constructor
    · intro hv
      simp only [transformCalls, List.mem_map] at hv
      obtain ⟨⟨v', xs⟩, he, rfl⟩ := hv
      exact labelPresent_of_entry he
    · intro hp
      obtain ⟨xs, hxs⟩ := entry_of_labelPresent hp
      simp only [transformCalls, List.mem_map]
      exact ⟨(v, xs), hxs, rfl⟩
  · intro herr p q slp slq hp hq hl
    have hvalid : ((collectByValue s).any fun e => invalidCard (t e.1)) = false := by
      cases hany : (collectByValue s).any fun e => invalidCard (t e.1)
      · rfl
      · rw [map_eq_of_invalid hany] at herr
        exact Option.noConfusion herr
    rw [map_state_of_valid hvalid p, map_state_of_valid hvalid q, hp, hq]
    simp [relabelCell, hl]

/-- Witness for C7 at the fresh 1×2 board with a constant transformer. -/
theorem C7_transform_once_and_groups_agree_witness :
    (transformCalls plainBoard).Nodup ∧
    ((getCell (map (fun _ => "z") plainBoard).state ⟨0, 0⟩).map Slot.label
        = (getCell (map (fun _ => "z") plainBoard).state ⟨0, 0⟩).map Slot.label ∧
      (getCell (map (fun _ => "z") plainBoard).state ⟨0, 0⟩).isSome = true) := by
  have h := C7_transform_once_and_groups_agree plainBoard (fun _ => "z")
  exact ⟨h.1, h.2.2 (by decide) ⟨0, 0⟩ ⟨0, 0⟩ ⟨"a", false, none⟩ ⟨"a", false, none⟩
    (by decide) (by decide) rfl⟩

/-- C8: `map` changes no cell's face, controller or occupancy, and leaves
the dimensions, first selections, pending outcomes, wait queues and
watchers untouched — on success and on failure alike. -/
theorem C8_map_frame (s : BoardState) (t : String → String) :
    (map t s).state.rows = s.rows ∧
    (map t s).state.cols = s.cols ∧
    (map t s).state.firstSelection = s.firstSelection ∧
    (map t s).state.pending = s.pending ∧
    (map t s).state.waitQueues = s.waitQueues ∧
    (map t s).state.watchers = s.watchers ∧
    ∀ p, (getCell (map t s).state p).map Slot.faceUp = (getCell s p).map Slot.faceUp ∧
      (getCell (map t s).state p).map Slot.controller
        = (getCell s p).map Slot.controller ∧
      (getCell (map t s).state p).isSome = (getCell s p).isSome := by
  cases hany : (collectByValue s).any fun e => invalidCard (t e.1)
  · rw [map_eq_of_valid hany]
    obtain ⟨h1, h2, h3, h4, h5, h6⟩ := commitMap_fields t s
    refine ⟨h1, h2, h3, h4, h5, h6, ?_⟩
    intro p
    rw [getCell_commitMap]
    cases getCell s p <;> simp [relabelCell]
  · rw [map_eq_of_invalid hany]
    exact ⟨rfl, rfl, rfl, rfl, rfl, rfl, fun p => ⟨rfl, rfl, rfl⟩⟩

/-! ## Claim theorems: bounds checking and error locality -/

/-- C3 (amended): an out-of-bounds position makes `flipFirst` fail
`OutOfBounds`, but `flipSecond` never reports `OutOfBounds` for its target
position: with no first selection it fails `NoFirst`, and with a recorded
first selection (whose cell is still occupied) it treats the out-of-bounds
position as empty and fails `EmptyTarget` via rule 2-A. -/
theorem C3_oob_error_kinds (s : BoardState) (p : String) (pos : Pos)
    (hw : within s pos = false) :
    (flipFirst pos p s).err = some .OutOfBounds ∧
    (alistGet p s.firstSelection = none → (flipSecond pos p s).err = some .NoFirst) ∧
    (∀ first sl, alistGet p s.firstSelection = some first →
      getCell s first = some sl → (flipSecond pos p s).err = some .EmptyTarget) := by
  refine ⟨?_, ?_, ?_⟩
  · rw [flipFirst_oob hw]
  · intro hfs
    rw [flipSecond_noFirst hfs]
  · intro first sl hfs hsl
    rw [flipSecond_2A hfs hsl (by simp [hw])]

/-- Witness for C3 at the board where `alice` has a first selection and the
probed position (0,-1) is out of bounds. -/
theorem C3_oob_error_kinds_witness :
    (flipFirst ⟨0, -1⟩ "alice" firstSelBoard).err = some .OutOfBounds ∧
    (alistGet "alice" firstSelBoard.firstSelection = none →
      (flipSecond ⟨0, -1⟩ "alice" firstSelBoard).err = some .NoFirst) ∧
    (∀ first sl, alistGet "alice" firstSelBoard.firstSelection = some first →
      getCell firstSelBoard first = some sl →
      (flipSecond ⟨0, -1⟩ "alice" firstSelBoard).err = some .EmptyTarget) :=
  C3_oob_error_kinds firstSelBoard "alice" ⟨0, -1⟩ (by decide)

/-- C4 (amended): when `flipFirst(pos, p)` fails, the resulting state is
exactly `settleBeforeNewFirstMove(p)` applied to the pre-call state — the
documented cleanup that runs before the flip — and its events are exactly
the cleanup's; in particular, when `p` had no pending outcome the board is
exactly as before the call and no waiter or watcher is signalled. -/
theorem C4_failed_flipFirst_settles_only (s : BoardState) (pos : Pos) (p : String)
    (h : (flipFirst pos p s).err.isSome = true) :
    (flipFirst pos p s).state = (settleBeforeNewFirstMove p s).1 ∧
    (flipFirst pos p s).evs = (settleBeforeNewFirstMove p s).2 ∧
    (pendingOf s p = none →
      (flipFirst pos p s).state = s ∧ (flipFirst pos p s).evs = []) := by
  obtain ⟨h1, h2⟩ := flipFirst_fail pos p s h
  refine ⟨h1, h2, fun hp => ⟨?_, ?_⟩⟩
  · rw [h1, settle_none hp]
  · rw [h2, settle_none hp]

/-- Witness for C4: a failing out-of-bounds `flipFirst` on the fresh board
(no pending outcome) leaves the state untouched. -/
theorem C4_failed_flipFirst_settles_only_witness :
    (flipFirst ⟨0, 5⟩ "alice" plainBoard).state
        = (settleBeforeNewFirstMove "alice" plainBoard).1 ∧
    (flipFirst ⟨0, 5⟩ "alice" plainBoard).evs
        = (settleBeforeNewFirstMove "alice" plainBoard).2 ∧
    (pendingOf plainBoard "alice" = none →
      (flipFirst ⟨0, 5⟩ "alice" plainBoard).state = plainBoard ∧
      (flipFirst ⟨0, 5⟩ "alice" plainBoard).evs = []) :=
  C4_failed_flipFirst_settles_only plainBoard ⟨0, 5⟩ "alice" (by decide)

/-- C5: with a recorded first selection whose cell is still occupied, a
`flipSecond` against an occupied, face-up, controlled cell (including the
caller's own first card) returns immediately — in the async variant too,
which merely delegates — failing `SecondContested` after releasing the
controller of `first`, clearing the caller's first selection, and waking
the single FIFO head waiter on `first`; no pending outcome is recorded and
no wait queue ever grows. -/
theorem C5_flipSecond_contested_immediate (s : BoardState) (pos : Pos) (pl : String)
    (first : Pos) (sl1 sl2 : Slot)
    (hfs : alistGet pl s.firstSelection = some first)
    (hsl1 : getCell s first = some sl1)
    (hpos : getCell s pos = some sl2)
    (hface : sl2.faceUp = true)
    (hctrl : sl2.controller.isSome = true) :
    (flipSecond pos pl s).err = some .SecondContested ∧
    flipSecondAsync pos pl s = flipSecond pos pl s ∧
    getCell (flipSecond pos pl s).state first = some { sl1 with controller := none } ∧
    alistGet pl (flipSecond pos pl s).state.firstSelection = none ∧
    (flipSecond pos pl s).state.pending = s.pending ∧
    queueAt (flipSecond pos pl s).state first = (queueAt s first).tail ∧
    (∀ q, q ≠ first → queueAt (flipSecond pos pl s).state q = queueAt s q) ∧
    (flipSecond pos pl s).evs = (match queueAt s first with
      | [] => []
      | w :: _ => [BEvent.wake first w]) := by
  have hspec := flipSecond_2B hfs hsl1 hpos hface hctrl
  have hrel := relinquish_spec hfs hsl1
  rw [hrel] at hspec
  rw [hspec]
  dsimp only
  refine ⟨rfl, hspec, ?_, ?_, ?_, ?_, ?_, ?_⟩
  · have hcg : getCell
        { (wakeNext first (setCell first (some { sl1 with controller := none }) s)).1 with
          firstSelection := alistErase pl s.firstSelection } first
        = getCell (wakeNext first
            (setCell first (some { sl1 with controller := none }) s)).1 first :=
      getCell_congr rfl rfl rfl first
    rw [hcg, wakeNext_getCell, getCell_setCell_some_self hsl1]
  · exact alistGet_erase_self pl s.firstSelection
  · simp
  · show queueAt (wakeNext first
        (setCell first (some { sl1 with controller := none }) s)).1 first
      = (queueAt s first).tail
    rw [queueAt_wakeNext_self, queueAt_setCell]
  · intro q hq
    show queueAt (wakeNext first
        (setCell first (some { sl1 with controller := none }) s)).1 q
      = queueAt s q
    rw [queueAt_wakeNext_ne hq, queueAt_setCell]
  · rw [wakeNext_snd, queueAt_setCell]

/-- Witness for C5 on the board where `alice` holds (0,0) and probes `bob`'s
face-up controlled card at (0,1), with `carol` waiting on (0,0). -/
theorem C5_flipSecond_contested_immediate_witness :
    (flipSecond ⟨0, 1⟩ "alice" contestedSecondBoard).err = some .SecondContested ∧
    flipSecondAsync ⟨0, 1⟩ "alice" contestedSecondBoard
        = flipSecond ⟨0, 1⟩ "alice" contestedSecondBoard ∧
    getCell (flipSecond ⟨0, 1⟩ "alice" contestedSecondBoard).state ⟨0, 0⟩
        = some { (⟨"a", true, some "alice"⟩ : Slot) with controller := none } ∧
    alistGet "alice"
        (flipSecond ⟨0, 1⟩ "alice" contestedSecondBoard).state.firstSelection = none ∧
    (flipSecond ⟨0, 1⟩ "alice" contestedSecondBoard).state.pending
        = contestedSecondBoard.pending ∧
    queueAt (flipSecond ⟨0, 1⟩ "alice" contestedSecondBoard).state ⟨0, 0⟩
        = (queueAt contestedSecondBoard ⟨0, 0⟩).tail ∧
    (∀ q, q ≠ ⟨0, 0⟩ →
      queueAt (flipSecond ⟨0, 1⟩ "alice" contestedSecondBoard).state q
        = queueAt contestedSecondBoard q) ∧
    (flipSecond ⟨0, 1⟩ "alice" contestedSecondBoard).evs
        = (match queueAt contestedSecondBoard ⟨0, 0⟩ with
          | [] => []
          | w :: _ => [BEvent.wake ⟨0, 0⟩ w]) :=
  C5_flipSecond_contested_immediate contestedSecondBoard ⟨0, 1⟩ "alice" ⟨0, 0⟩
    ⟨"a", true, some "alice"⟩ ⟨"b", true, some "bob"⟩
    (by decide) (by decide) (by decide) (by decide) (by decide)

/-! ## Claim theorem: rule 3-A and the wait queues -/

/-- C1 (amended): consuming a pending `Matched{a, b}` marks both cells
Empty and clears the pending outcome, but wakes only the single FIFO-head
waiter of each of the two positions, with the ordinary wake signal (the
implementation has no distinct `Removed` signal): the woken waiter's retry
then finds the cell Empty and fails `EmptySpace`, while every waiter behind
the head remains queued. -/
theorem C1_settle_matched_wakes_head_only (s : BoardState) (p : String) (a b : Pos)
    (hp : pendingOf s p = some (.matched a b)) (hab : a ≠ b)
    (hwa : within s a = true) (hwb : within s b = true) :
    getCell (settleBeforeNewFirstMove p s).1 a = none ∧
    getCell (settleBeforeNewFirstMove p s).1 b = none ∧
    queueAt (settleBeforeNewFirstMove p s).1 a = (queueAt s a).tail ∧
    queueAt (settleBeforeNewFirstMove p s).1 b = (queueAt s b).tail ∧
    pendingOf (settleBeforeNewFirstMove p s).1 p = none ∧
    (∀ w, flipFirstAttempt a w (settleBeforeNewFirstMove p s).1 =
      .inl ⟨(settleBeforeNewFirstMove p s).1, [], some .EmptySpace⟩) ∧
    (∀ w, flipFirstAttempt b w (settleBeforeNewFirstMove p s).1 =
      .inl ⟨(settleBeforeNewFirstMove p s).1, [], some .EmptySpace⟩) ∧
    ((settleBeforeNewFirstMove p s).2.filter fun e => !isBroadcastEvent e) =
      ((match queueAt s a with
        | [] => []
        | w :: _ => [BEvent.wake a w]) ++
       (match queueAt s b with
        | [] => []
        | w :: _ => [BEvent.wake b w])) := by
  rw [settle_matched hp]
  dsimp only
  refine ⟨?_, ?_, ?_, ?_, ?_, ?_, ?_, ?_⟩
  · rw [getCell_withPending, notifyChange_getCell, wakeNext_getCell, wakeNext_getCell,
      getCell_setCell_ne hab, getCell_setCell_none_self]
  · rw [getCell_withPending, notifyChange_getCell, wakeNext_getCell, wakeNext_getCell,
      getCell_setCell_none_self]
  · rw [queueAt_withPending, queueAt_notifyChange, queueAt_wakeNext_ne hab,
      queueAt_wakeNext_self, queueAt_setCell, queueAt_setCell]
  · rw [queueAt_withPending, queueAt_notifyChange, queueAt_wakeNext_self,
      queueAt_wakeNext_ne (Ne.symm hab), queueAt_setCell, queueAt_setCell]
  · show (alistGet p (alistSet p none _)).join = none
    rw [alistGet_set_self]
    rfl
  · intro w
    refine flipFirstAttempt_empty ?_ ?_ w
    · rw [within_withPending, within_notifyChange, within_wakeNext, within_wakeNext,
        within_setCell, within_setCell]
      exact hwa
    · rw [getCell_withPending, notifyChange_getCell, wakeNext_getCell, wakeNext_getCell,
        getCell_setCell_ne hab, getCell_setCell_none_self]
  · intro w
    refine flipFirstAttempt_empty ?_ ?_ w
    · rw [within_withPending, within_notifyChange, within_wakeNext, within_wakeNext,
        within_setCell, within_setCell]
      exact hwb
    · rw [getCell_withPending, notifyChange_getCell, wakeNext_getCell, wakeNext_getCell,
        getCell_setCell_none_self]
  · rw [List.filter_append, List.filter_append, notifyChange_snd_filter,
      List.append_nil, wakeNext_snd, wakeNext_snd,
      queueAt_wakeNext_ne (Ne.symm hab)]
    simp only [queueAt_setCell]
    generalize queueAt s a = qa
    generalize queueAt s b = qb
    cases qa <;> cases qb <;> simp [isBroadcastEvent]

/-- Witness for C1 on the board where `p` has a matched pair pending on
(0,0),(0,1) and two waiters are queued on (0,0). -/
theorem C1_settle_matched_wakes_head_only_witness :
    getCell (settleBeforeNewFirstMove "p" twoWaiterBoard).1 ⟨0, 0⟩ = none ∧
    getCell (settleBeforeNewFirstMove "p" twoWaiterBoard).1 ⟨0, 1⟩ = none ∧
    queueAt (settleBeforeNewFirstMove "p" twoWaiterBoard).1 ⟨0, 0⟩
        = (queueAt twoWaiterBoard ⟨0, 0⟩).tail ∧
    queueAt (settleBeforeNewFirstMove "p" twoWaiterBoard).1 ⟨0, 1⟩
        = (queueAt twoWaiterBoard ⟨0, 1⟩).tail ∧
    pendingOf (settleBeforeNewFirstMove "p" twoWaiterBoard).1 "p" = none ∧
    (∀ w, flipFirstAttempt ⟨0, 0⟩ w (settleBeforeNewFirstMove "p" twoWaiterBoard).1 =
      .inl ⟨(settleBeforeNewFirstMove "p" twoWaiterBoard).1, [], some .EmptySpace⟩) ∧
    (∀ w, flipFirstAttempt ⟨0, 1⟩ w (settleBeforeNewFirstMove "p" twoWaiterBoard).1 =
      .inl ⟨(settleBeforeNewFirstMove "p" twoWaiterBoard).1, [], some .EmptySpace⟩) ∧
    ((settleBeforeNewFirstMove "p" twoWaiterBoard).2.filter
        fun e => !isBroadcastEvent e) =
      ((match queueAt twoWaiterBoard ⟨0, 0⟩ with
        | [] => []
        | w :: _ => [BEvent.wake ⟨0, 0⟩ w]) ++
       (match queueAt twoWaiterBoard ⟨0, 1⟩ with
        | [] => []
        | w :: _ => [BEvent.wake ⟨0, 1⟩ w])) :=
  C1_settle_matched_wakes_head_only twoWaiterBoard "p" ⟨0, 0⟩ ⟨0, 1⟩
    (by decide) (by decide) (by decide) (by decide)

/-! ## Claim theorem: change notification of `map` versus `mapCards` -/

/-- C2 (amended): a successful plain `map` never notifies the watchers —
its `_notify` hook is never installed by any constructor — even when labels
do change; it is `mapCards` that broadcasts, exactly once at the very end
of its commit and only when at least one cell label actually changed,
emptying the watcher set.  In both variants the committed grid is the
original grid with every occupied label transformed. -/
theorem C2_only_mapCards_notifies (s : BoardState) (t : String → String)
    (hvalid : ((collectByValue s).any fun e => invalidCard (t e.1)) = false) :
    (map t s).evs = [] ∧
    (map t s).state.watchers = s.watchers ∧
    (mapCards t s).err = none ∧
    (∀ q, getCell (mapCards t s).state q = (getCell s q).map (relabelCell t)) ∧
    (labelActuallyChanges t s →
        (mapCards t s).evs
          = (if s.watchers = [] then [] else [BEvent.broadcast s.watchers]) ∧
        (mapCards t s).state.watchers = []) ∧
    (¬ labelActuallyChanges t s →
        (mapCards t s).evs = [] ∧
        (mapCards t s).state.watchers = s.watchers) := by
  have hmc : mapCards t s =
      (if (commitMapCards t (collectByValue s) s).2 = true then
        ⟨(notifyChange (commitMapCards t (collectByValue s) s).1).1,
         (notifyChange (commitMapCards t (collectByValue s) s).1).2, none⟩
      else ⟨(commitMapCards t (collectByValue s) s).1, [], none⟩) := by
    simp [mapCards, hvalid]
  obtain ⟨f1, f2, f3, f4, f5, f6⟩ := commitMapCards_fields t s
  refine ⟨?_, ?_, ?_, ?_, ?_, ?_⟩
  · rw [map_eq_of_valid hvalid]
  · rw [map_eq_of_valid hvalid]
    exact (commitMap_fields t s).2.2.2.2.2
  · rw [hmc]
    split <;> rfl
  · intro q
    rw [hmc]
    split
    · show getCell (notifyChange (commitMapCards t (collectByValue s) s).1).1 q = _
      rw [notifyChange_getCell]
      exact getCell_commitMapCards t s q
    · exact getCell_commitMapCards t s q
  · intro hch
    have hflag : (commitMapCards t (collectByValue s) s).2 = true :=
      (commitMapCards_flag_iff t s).mpr hch
    rw [hmc, if_pos hflag]
    constructor
    · show (notifyChange (commitMapCards t (collectByValue s) s).1).2
          = (if s.watchers = [] then [] else [BEvent.broadcast s.watchers])
      unfold notifyChange
      rw [f6]
      split <;> rfl
    · show (notifyChange (commitMapCards t (collectByValue s) s).1).1.watchers = []
      unfold notifyChange
      rw [f6]
      split
      · rename_i hw
        exact f6.trans hw
      · rfl
  · intro hch
    have hflag : (commitMapCards t (collectByValue s) s).2 = false := by
      cases hfl : (commitMapCards t (collectByValue s) s).2
      · rfl
      · exact absurd ((commitMapCards_flag_iff t s).mp hfl) hch
    rw [hmc, if_neg (by rw [hflag]; simp)]
    exact ⟨rfl, f6⟩

/-- Witness for C2 on the watched board, with the transform renaming `a`
to `z`. -/
theorem C2_only_mapCards_notifies_witness :
    ((collectByValue watcherBoard).any
        fun e => invalidCard ((fun v => if v = "a" then "z" else v) e.1)) = false ∧
    ((map (fun v => if v = "a" then "z" else v) watcherBoard).evs = [] ∧
     (map (fun v => if v = "a" then "z" else v) watcherBoard).state.watchers
        = watcherBoard.watchers ∧
     (mapCards (fun v => if v = "a" then "z" else v) watcherBoard).err = none ∧
     (∀ q, getCell (mapCards (fun v => if v = "a" then "z" else v) watcherBoard).state q
        = (getCell watcherBoard q).map
            (relabelCell (fun v => if v = "a" then "z" else v))) ∧
     (labelActuallyChanges (fun v => if v = "a" then "z" else v) watcherBoard →
        (mapCards (fun v => if v = "a" then "z" else v) watcherBoard).evs
          = (if watcherBoard.watchers = []
             then [] else [BEvent.broadcast watcherBoard.watchers]) ∧
        (mapCards (fun v => if v = "a" then "z" else v) watcherBoard).state.watchers
          = []) ∧
     (¬ labelActuallyChanges (fun v => if v = "a" then "z" else v) watcherBoard →
        (mapCards (fun v => if v = "a" then "z" else v) watcherBoard).evs = [] ∧
        (mapCards (fun v => if v = "a" then "z" else v) watcherBoard).state.watchers
          = watcherBoard.watchers)) :=
  ⟨by decide,
   C2_only_mapCards_notifies watcherBoard (fun v => if v = "a" then "z" else v)
     (by decide)⟩

/-! ## Preservation of the invariant by the primitive state changes -/

@[simp] theorem getCell_withFirst (x : BoardState) (y : List (String × Pos))
    (q : Pos) : getCell { x with firstSelection := y } q = getCell x q :=
  getCell_congr rfl rfl rfl q

theorem I1_congr {X Y : BoardState} (hc : ∀ p, getCell X p = getCell Y p)
    (h : I1 Y) : I1 X :=
  fun p sl hp hf => h p sl (hc p ▸ hp) hf

theorem inv_congr {X Y : BoardState} (hc : ∀ p, getCell X p = getCell Y p)
    (hf : X.firstSelection = Y.firstSelection) (h : Inv Y) : Inv X := by
  obtain ⟨h1, h2⟩ := h
  refine ⟨I1_congr hc h1, ?_⟩
  intro q f hq sl hsl
  rw [hf] at hq
  rw [hc f] at hsl
  exact h2 q f hq sl hsl

theorem inv_assemble {X : BoardState} {pl : String} {F : List (String × Pos)}
    (hI1 : I1 X)
    (hsel : ∀ q f, q ≠ pl → alistGet q F = some f →
        ∀ sl, getCell X f = some sl → sl.faceUp = true ∧ sl.controller = some q) :
    Inv { X with firstSelection := alistErase pl F } := by
  constructor
  · intro p sl hp hf
    rw [getCell_withFirst] at hp
    exact hI1 p sl hp hf
  · intro q f hq sl hsl
    by_cases hqpl : q = pl
    · subst hqpl
      rw [alistGet_erase_self] at hq
      exact Option.noConfusion hq
    · rw [alistGet_erase_ne hqpl] at hq
      rw [getCell_withFirst] at hsl
      exact hsel q f hqpl hq sl hsl

theorem inv_setCell_none (p : Pos) {s : BoardState} (h : Inv s) :
    Inv (setCell p none s) := by
  obtain ⟨h1, h2⟩ := h
  constructor
  · intro q sl hq hf
    by_cases hqp : q = p
    · subst hqp
      rw [getCell_setCell_none_self] at hq
      exact Option.noConfusion hq
    · rw [getCell_setCell_ne hqp] at hq
      exact h1 q sl hq hf
  · intro q f hq sl hsl
    rw [setCell_firstSelection] at hq
    by_cases hfp : f = p
    · subst hfp
      rw [getCell_setCell_none_self] at hsl
      exact Option.noConfusion hsl
    · rw [getCell_setCell_ne hfp] at hsl
      exact h2 q f hq sl hsl

theorem inv_flipUp {S : BoardState} {pos : Pos} {c : Slot}
    (h : Inv S) (hc : getCell S pos = some c) (hf : c.faceUp = false) :
    Inv (modifyCell pos (fun x => { x with faceUp := true }) S) := by
  obtain ⟨hI1, hsel⟩ := h
  constructor
  · intro p sl hp hfd
    by_cases hpp : p = pos
    · subst hpp
      rw [getCell_modifyCell_self, hc] at hp
      simp only [Option.map_some'] at hp
      injection hp with hp
      rw [← hp] at hfd
      exact Bool.noConfusion hfd
    · rw [getCell_modifyCell_ne hpp] at hp
      exact hI1 p sl hp hfd
  · intro q f hq sl hslf
    rw [modifyCell_firstSelection] at hq
    by_cases hfp : f = pos
    · exfalso
      have hpre := hsel q f hq c (by rw [hfp]; exact hc)
      rw [hpre.1] at hf
      exact Bool.noConfusion hf
    · rw [getCell_modifyCell_ne hfp] at hslf
      exact hsel q f hq sl hslf

theorem inv_settleFlipDown (q : Pos) {s : BoardState} (h : Inv s) :
    Inv (settleFlipDown q s).1 := by
  obtain ⟨hI1, hsel⟩ := h
  unfold settleFlipDown
  cases hc : getCell s q with
  | none => exact ⟨hI1, hsel⟩
  | some cell =>
      dsimp only
      split
      · rename_i hcond
        constructor
        · intro p sl hp hf
          by_cases hpq : p = q
          · subst hpq
            rw [getCell_modifyCell_self, hc] at hp
            simp only [Option.map_some'] at hp
            injection hp with hp
            rw [← hp]
            exact hcond.2
          · rw [getCell_modifyCell_ne hpq] at hp
            exact hI1 p sl hp hf
        · intro q' f hq' sl hslf
          rw [modifyCell_firstSelection] at hq'
          by_cases hfq : f = q
          · exfalso
            have hpre := hsel q' f hq' cell (by rw [hfq]; exact hc)
            rw [hcond.2] at hpre
            exact Option.noConfusion hpre.2
          · rw [getCell_modifyCell_ne hfq] at hslf
            exact hsel q' f hq' sl hslf
      · exact ⟨hI1, hsel⟩

theorem inv_select {S S' : BoardState} {pos : Pos} {pl : String} {cell cell' : Slot}
    (h : Inv S)
    (hc : getCell S pos = some cell)
    (hok : cell.faceUp = false ∨ cell.controller = none ∨ cell.controller = some pl)
    (hpos : getCell S' pos = some cell')
    (hface : cell'.faceUp = true) (hctrl : cell'.controller = some pl)
    (hother : ∀ p, p ≠ pos → getCell S' p = getCell S p)
    (hfs : S'.firstSelection = alistSet pl pos S.firstSelection) :
    Inv S' := by
  obtain ⟨hI1, hsel⟩ := h
  constructor
  · intro p sl hp hf
    by_cases hpp : p = pos
    · subst hpp
      rw [hpos] at hp
      injection hp with hp
      rw [hp] at hface
      rw [hface] at hf
      exact Bool.noConfusion hf
    · rw [hother p hpp] at hp
      exact hI1 p sl hp hf
  · intro q f hq sl hslf
    rw [hfs] at hq
    by_cases hqpl : q = pl
    · subst hqpl
      rw [alistGet_set_self] at hq
      injection hq with hq
      subst hq
      rw [hpos] at hslf
      injection hslf with hslf
      rw [← hslf]
      exact ⟨hface, hctrl⟩
    · rw [alistGet_set_ne hqpl] at hq
      by_cases hfp : f = pos
      · exfalso
        have hpre := hsel q f hq cell (by rw [hfp]; exact hc)
        rcases hok with hko | hko | hko
        · rw [hpre.1] at hko
          exact Bool.noConfusion hko
        · rw [hpre.2] at hko
          exact Option.noConfusion hko
        · rw [hpre.2] at hko
          exact hqpl (Option.some.inj hko)
      · rw [hother f hfp] at hslf
        exact hsel q f hq sl hslf

theorem inv_pairCtrl {S : BoardState} (pl : String) (v : Option String)
    {first pos : Pos} {c1 c2 : Slot}
    (h : Inv S)
    (hfs : alistGet pl S.firstSelection = some first)
    (h1 : getCell S first = some c1)
    (h2 : getCell S pos = some c2)
    (hf2 : c2.faceUp = true) (hc2 : c2.controller = none) :
    I1 (modifyCell pos (fun c => { c with controller := v })
         (modifyCell first (fun c => { c with controller := v }) S)) ∧
    (∀ q f, q ≠ pl → alistGet q S.firstSelection = some f →
       ∀ sl, getCell (modifyCell pos (fun c => { c with controller := v })
         (modifyCell first (fun c => { c with controller := v }) S)) f = some sl →
         sl.faceUp = true ∧ sl.controller = some q) := by
  obtain ⟨hI1, hsel⟩ := h
  have hc1 := hsel pl first hfs c1 h1
  constructor
  · intro p sl hp hf
    by_cases hpp : p = pos
    · subst hpp
      rw [getCell_modifyCell_self] at hp
      by_cases hpf : p = first
      · rw [hpf, getCell_modifyCell_self, h1] at hp
        simp only [Option.map_some'] at hp
        injection hp with hp
        rw [← hp] at hf
        rw [hc1.1] at hf
        exact Bool.noConfusion hf
      · rw [getCell_modifyCell_ne hpf, h2] at hp
        simp only [Option.map_some'] at hp
        injection hp with hp
        rw [← hp] at hf
        rw [hf2] at hf
        exact Bool.noConfusion hf
    · rw [getCell_modifyCell_ne hpp] at hp
      by_cases hpf : p = first
      · subst hpf
        rw [getCell_modifyCell_self, h1] at hp
        simp only [Option.map_some'] at hp
        injection hp with hp
        rw [← hp] at hf
        rw [hc1.1] at hf
        exact Bool.noConfusion hf
      · rw [getCell_modifyCell_ne hpf] at hp
        exact hI1 p sl hp hf
  · intro q f hq hfq sl hslf
    by_cases hfpos : f = pos
    · exfalso
      have hpre := hsel q f hfq c2 (by rw [hfpos]; exact h2)
      rw [hc2] at hpre
      exact Option.noConfusion hpre.2
    · by_cases hff : f = first
      · exfalso
        have hpre := hsel q f hfq c1 (by rw [hff]; exact h1)
        have heq : some q = some pl := hpre.2 ▸ hc1.2
        exact hq (Option.some.inj heq)
      · rw [getCell_modifyCell_ne hfpos, getCell_modifyCell_ne hff] at hslf
        exact hsel q f hfq sl hslf

theorem inv_settle (p : String) {s : BoardState} (h : Inv s) :
    Inv (settleBeforeNewFirstMove p s).1 := by
  unfold settleBeforeNewFirstMove
  cases hp : pendingOf s p with
  | none => exact h
  | some outcome =>
      cases outcome with
      | matched a b =>
          dsimp only
          have i2 : Inv (setCell b none (setCell a none s)) :=
            inv_setCell_none b (inv_setCell_none a h)
          have i3 : Inv (wakeNext a (setCell b none (setCell a none s))).1 :=
            inv_congr (fun q => wakeNext_getCell _ _ q) (wakeNext_fst_firstSelection _ _) i2
          have i4 : Inv (wakeNext b (wakeNext a (setCell b none (setCell a none s))).1).1 :=
            inv_congr (fun q => wakeNext_getCell _ _ q) (wakeNext_fst_firstSelection _ _) i3
          have i5 : Inv (notifyChange
              (wakeNext b (wakeNext a (setCell b none (setCell a none s))).1).1).1 :=
            inv_congr (fun q => notifyChange_getCell _ q) (notifyChange_fst_firstSelection _) i4
          exact inv_congr (fun q => getCell_withPending _ _ q) rfl i5
      | mismatched a b =>
          dsimp only
          have iB : Inv (settleFlipDown b (settleFlipDown a s).1).1 :=
            inv_settleFlipDown b (inv_settleFlipDown a h)
          refine inv_congr (fun q => getCell_withPending _ _ q) rfl ?_
          split
          · exact inv_congr (fun q => notifyChange_getCell _ q)
              (notifyChange_fst_firstSelection _) iB
          · exact iB

theorem inv_relinquish (pl : String) {s : BoardState} (h : Inv s) :
    Inv (relinquishFirstOnly pl s).state := by
  unfold relinquishFirstOnly
  cases hfs : alistGet pl s.firstSelection with
  | none => exact h
  | some first =>
      dsimp only
      split
      · cases hc : getCell s first with
        | some sl =>
            dsimp only
            -- the new cell at `first` is uncontrolled; everything else is intact
            have hI1 : I1 (wakeNext first
                (setCell first (some { sl with controller := none }) s)).1 := by
              intro p2 sl2 hp2 hf2
              rw [wakeNext_getCell] at hp2
              by_cases hpf : p2 = first
              · subst hpf
                rw [getCell_setCell_some_self hc] at hp2
                injection hp2 with hp2
                rw [← hp2]
              · rw [getCell_setCell_ne hpf] at hp2
                exact h.1 p2 sl2 hp2 hf2
            have hsel : ∀ q f, q ≠ pl →
                alistGet q (wakeNext first
                  (setCell first (some { sl with controller := none }) s)).1.firstSelection
                    = some f →
                ∀ sl2, getCell (wakeNext first
                  (setCell first (some { sl with controller := none }) s)).1 f = some sl2 →
                  sl2.faceUp = true ∧ sl2.controller = some q := by
              intro q f hqpl hq sl2 hslf
              rw [wakeNext_fst_firstSelection, setCell_firstSelection] at hq
              rw [wakeNext_getCell] at hslf
              by_cases hff : f = first
              · exfalso
                have hpre := h.2 q f hq sl (by rw [hff]; exact hc)
                have hpl := h.2 pl first hfs sl hc
                have heq : some q = some pl := hpre.2 ▸ hpl.2
                exact hqpl (Option.some.inj heq)
              · rw [getCell_setCell_ne hff] at hslf
                exact h.2 q f hq sl2 hslf
            exact inv_assemble hI1 hsel
        | none =>
            dsimp only
            have hsel : ∀ q f, q ≠ pl →
                alistGet q s.firstSelection = some f →
                ∀ sl2, getCell s f = some sl2 →
                  sl2.faceUp = true ∧ sl2.controller = some q := by
              intro q f _ hq sl2 hslf
              exact h.2 q f hq sl2 hslf
            exact inv_assemble h.1 hsel
      · exact h

theorem inv_flipFirstAttempt (pos : Pos) (pl : String) {s : BoardState} (h : Inv s) :
    Inv (match flipFirstAttempt pos pl s with
         | .inl o => o.state
         | .inr s2 => s2) := by
  unfold flipFirstAttempt
  cases hw : within s pos
  · exact h
  · simp only [Bool.not_true]
    rw [if_neg Bool.false_ne_true]
    cases hcell : getCell s pos with
    | none => exact h
    | some slot =>
        dsimp only
        cases hface : slot.faceUp
        · -- face-down: flip it up and record the selection
          simp only [Bool.not_false]
          rw [if_pos trivial]
          dsimp only
          apply inv_select h hcell (Or.inl hface)
          · rw [getCell_withFirst, notifyChange_getCell, getCell_modifyCell_self, hcell]
            exact rfl
          · rfl
          · rfl
          · intro p2 hpp
            rw [getCell_withFirst, notifyChange_getCell, getCell_modifyCell_ne hpp]
          · dsimp only
            rw [notifyChange_fst_firstSelection, modifyCell_firstSelection]
        · simp only [Bool.not_true]
          rw [if_neg Bool.false_ne_true]
          by_cases hctrl : slot.controller = none ∨ slot.controller = some pl
          · rw [if_pos hctrl]
            dsimp only
            apply inv_select h hcell (Or.inr hctrl)
            · rw [getCell_withFirst, getCell_modifyCell_self, hcell]
              exact rfl
            · exact hface
            · rfl
            · intro p2 hpp
              rw [getCell_withFirst, getCell_modifyCell_ne hpp]
            · dsimp only
              rw [modifyCell_firstSelection]
          · rw [if_neg hctrl]
            dsimp only
            exact inv_congr (fun q => getCell_congr rfl rfl rfl q) rfl h

theorem inv_flipFirst (pos : Pos) (pl : String) {s : BoardState} (h : Inv s) :
    Inv (flipFirst pos pl s).state := by
  have hst : Inv (settleBeforeNewFirstMove pl s).1 := inv_settle pl h
  unfold flipFirst
  dsimp only
  cases hw : within (settleBeforeNewFirstMove pl s).1 pos
  · exact hst
  · simp only [Bool.not_true]
    rw [if_neg Bool.false_ne_true]
    cases hcell : getCell (settleBeforeNewFirstMove pl s).1 pos with
    | none => exact hst
    | some slot =>
        dsimp only
        cases hface : slot.faceUp
        · simp only [Bool.not_false]
          rw [if_pos trivial]
          dsimp only
          apply inv_select hst hcell (Or.inl hface)
          · rw [getCell_withFirst, notifyChange_getCell, getCell_modifyCell_self, hcell]
            exact rfl
          · rfl
          · rfl
          · intro p2 hpp
            rw [getCell_withFirst, notifyChange_getCell, getCell_modifyCell_ne hpp]
          · dsimp only
            rw [notifyChange_fst_firstSelection, modifyCell_firstSelection]
        · simp only [Bool.not_true]
          rw [if_neg Bool.false_ne_true]
          by_cases hctrl : slot.controller = none ∨ slot.controller = some pl
          · rw [if_pos hctrl]
            dsimp only
            apply inv_select hst hcell (Or.inr hctrl)
            · rw [getCell_withFirst, getCell_modifyCell_self, hcell]
              exact rfl
            · exact hface
            · rfl
            · intro p2 hpp
              rw [getCell_withFirst, getCell_modifyCell_ne hpp]
            · dsimp only
              rw [modifyCell_firstSelection]
          · rw [if_neg hctrl]
            exact hst

theorem inv_afterFlipUp {A : BoardState} {pl : String} {first pos : Pos} {c2v : Slot}
    (hA : Inv A)
    (hfsA : alistGet pl A.firstSelection = some first)
    (h2 : getCell A pos = some c2v)
    (hf2 : c2v.faceUp = true) (hc2 : c2v.controller = none)
    (tu : Bool) :
    Inv ((if !within A first then (⟨A, [], some .OutOfBounds⟩ : Out)
         else match getCell A first, getCell A pos with
         | some c1, some c2 =>
           if c1.label = c2.label then
             let sC := modifyCell pos (fun c => { c with controller := some pl })
               (modifyCell first (fun c => { c with controller := some pl }) A)
             let sD := { sC with
               pending := alistSet pl (some (.matched first pos)) sC.pending }
             let n := if tu then notifyChange sD else (sD, [])
             (⟨{ n.1 with firstSelection := alistErase pl n.1.firstSelection },
               n.2, none⟩ : Out)
           else
             let sC := modifyCell pos (fun c => { c with controller := none })
               (modifyCell first (fun c => { c with controller := none }) A)
             let w1 := wakeNext first sC
             let w2 := wakeNext pos w1.1
             let sF := { w2.1 with
               pending := alistSet pl (some (.mismatched first pos)) w2.1.pending }
             let n := if tu then notifyChange sF else (sF, [])
             (⟨{ n.1 with firstSelection := alistErase pl n.1.firstSelection },
               w1.2 ++ w2.2 ++ n.2, none⟩ : Out)
         | _, _ => (⟨A, [], some .Internal⟩ : Out)).state) := by
  cases hwf : within A first
  · exact hA
  · simp only [Bool.not_true]
    rw [if_neg Bool.false_ne_true]
    cases h1 : getCell A first with
    | none => exact hA
    | some c1 =>
        rw [h2]
        dsimp only
        by_cases hlab : c1.label = c2v.label
        · rw [if_pos hlab]
          obtain ⟨hI1W, hselW⟩ := inv_pairCtrl pl (some pl) hA hfsA h1 h2 hf2 hc2
          dsimp only
          set W := modifyCell pos (fun c => { c with controller := some pl })
            (modifyCell first (fun c => { c with controller := some pl }) A) with hW
          set sD := { W with
            pending := alistSet pl (some (PendingOutcome.matched first pos)) W.pending }
            with hsD
          set n := if tu = true then notifyChange sD else (sD, []) with hn
          have hcells : ∀ p2, getCell n.1 p2 = getCell W p2 := by
            intro p2
            rw [hn]
            split
            · rw [notifyChange_getCell]
              exact getCell_withPending W _ p2
            · exact getCell_withPending W _ p2
          have hfsel : n.1.firstSelection = A.firstSelection := by
            rw [hn]
            have hbase : sD.firstSelection = A.firstSelection := by
              show W.firstSelection = A.firstSelection
              rw [hW, modifyCell_firstSelection, modifyCell_firstSelection]
            split
            · rw [notifyChange_fst_firstSelection]
              exact hbase
            · exact hbase
          apply inv_assemble (I1_congr hcells hI1W)
          intro q f hqpl hq sl hslf
          rw [hfsel] at hq
          exact hselW q f hqpl hq sl ((hcells f) ▸ hslf)
        · rw [if_neg hlab]
          obtain ⟨hI1W, hselW⟩ := inv_pairCtrl pl none hA hfsA h1 h2 hf2 hc2
          dsimp only
          set W := modifyCell pos (fun c => { c with controller := none })
            (modifyCell first (fun c => { c with controller := none }) A) with hW
          set w1 := wakeNext first W with hw1
          set w2 := wakeNext pos w1.1 with hw2
          set sF := { w2.1 with
            pending := alistSet pl (some (PendingOutcome.mismatched first pos)) w2.1.pending }
            with hsF
          set n := if tu = true then notifyChange sF else (sF, []) with hn
          have hbase : ∀ p2, getCell sF p2 = getCell W p2 := by
            intro p2
            have hstep : getCell sF p2 = getCell w2.1 p2 := getCell_withPending w2.1 _ p2
            rw [hstep, hw2, wakeNext_getCell, hw1, wakeNext_getCell]
          have hcells : ∀ p2, getCell n.1 p2 = getCell W p2 := by
            intro p2
            rw [hn]
            split
            · rw [notifyChange_getCell]
              exact hbase p2
            · exact hbase p2
          have hfsel : n.1.firstSelection = A.firstSelection := by
            rw [hn]
            have hbase2 : sF.firstSelection = A.firstSelection := by
              show w2.1.firstSelection = A.firstSelection
              rw [hw2, wakeNext_fst_firstSelection, hw1, wakeNext_fst_firstSelection, hW,
                modifyCell_firstSelection, modifyCell_firstSelection]
            split
            · rw [notifyChange_fst_firstSelection]
              exact hbase2
            · exact hbase2
          apply inv_assemble (I1_congr hcells hI1W)
          intro q f hqpl hq sl hslf
          rw [hfsel] at hq
          exact hselW q f hqpl hq sl ((hcells f) ▸ hslf)

theorem inv_flipSecond (pos : Pos) (pl : String) {s : BoardState} (h : Inv s) :
    Inv (flipSecond pos pl s).state := by
  unfold flipSecond
  cases hfs : alistGet pl s.firstSelection with
  | none => exact h
  | some first =>
      dsimp only
      cases hif : (if within s pos then getCell s pos else none) with
      | none =>
          dsimp only
          split
          · exact inv_relinquish pl h
          · exact inv_relinquish pl h
      | some sl2 =>
          dsimp only
          have hpos2 : getCell s pos = some sl2 := by
            cases hwp : within s pos
            · rw [hwp] at hif
              simp at hif
            · rw [hwp] at hif
              simpa using hif
          by_cases hcont : (sl2.faceUp && sl2.controller.isSome) = true
          · rw [if_pos hcont]
            split
            · exact inv_relinquish pl h
            · exact inv_relinquish pl h
          · rw [if_neg hcont]
            cases hface2 : sl2.faceUp
            · have hc2n : sl2.controller = none := h.1 pos sl2 hpos2 hface2
              have hA : Inv (modifyCell pos (fun c => { c with faceUp := true }) s) :=
                inv_flipUp h hpos2 hface2
              have hfsA : alistGet pl (modifyCell pos
                  (fun c => { c with faceUp := true }) s).firstSelection = some first := by
                rw [modifyCell_firstSelection]
                exact hfs
              have h2A : getCell (modifyCell pos (fun c => { c with faceUp := true }) s) pos
                  = some { sl2 with faceUp := true } := by
                rw [getCell_modifyCell_self, hpos2]
                rfl
              simp only [Bool.not_false, if_true]
              exact inv_afterFlipUp hA hfsA h2A rfl hc2n true
            · have hc2n : sl2.controller = none := by
                cases hctl : sl2.controller with
                | none => rfl
                | some x =>
                    exfalso
                    apply hcont
                    rw [hface2, hctl]
                    rfl
              simp only [Bool.not_true, Bool.false_eq_true, if_false]
              exact inv_afterFlipUp h hfs hpos2 hface2 hc2n false

theorem inv_relabelLike {t : String → String} {s X : BoardState} (h : Inv s)
    (hcell : ∀ q, getCell X q = (getCell s q).map (relabelCell t))
    (hfs : X.firstSelection = s.firstSelection) : Inv X := by
  obtain ⟨hI1, hsel⟩ := h
  constructor
  · intro p sl hp hf
    rw [hcell p] at hp
    cases hc : getCell s p with
    | none => rw [hc] at hp; exact Option.noConfusion hp
    | some c0 =>
        rw [hc] at hp
        simp only [Option.map_some'] at hp
        injection hp with hp
        rw [← hp] at hf ⊢
        exact hI1 p c0 hc hf
  · intro q f hq sl hslf
    rw [hfs] at hq
    rw [hcell f] at hslf
    cases hc : getCell s f with
    | none => rw [hc] at hslf; exact Option.noConfusion hslf
    | some c0 =>
        rw [hc] at hslf
        simp only [Option.map_some'] at hslf
        injection hslf with hslf
        rw [← hslf]
        exact hsel q f hq c0 hc

theorem inv_map (t : String → String) {s : BoardState} (h : Inv s) :
    Inv (map t s).state := by
  cases hany : (collectByValue s).any fun e => invalidCard (t e.1)
  · rw [map_eq_of_valid hany]
    exact inv_relabelLike h (fun q => getCell_commitMap t s q)
      (commitMap_fields t s).2.2.1
  · rw [map_eq_of_invalid hany]
    exact h

theorem inv_mapCards (t : String → String) {s : BoardState} (h : Inv s) :
    Inv (mapCards t s).state := by
  cases hany : (collectByValue s).any fun e => invalidCard (t e.1)
  · have hmc : mapCards t s =
        (if (commitMapCards t (collectByValue s) s).2 = true then
          ⟨(notifyChange (commitMapCards t (collectByValue s) s).1).1,
           (notifyChange (commitMapCards t (collectByValue s) s).1).2, none⟩
        else ⟨(commitMapCards t (collectByValue s) s).1, [], none⟩) := by
      simp [mapCards, hany]
    have hC : Inv (commitMapCards t (collectByValue s) s).1 :=
      inv_relabelLike h (fun q => getCell_commitMapCards t s q)
        (commitMapCards_fields t s).2.2.1
    rw [hmc]
    split
    · exact inv_congr (fun q => notifyChange_getCell _ q)
        (notifyChange_fst_firstSelection _) hC
    · exact hC
  · rw [mapCards_eq_of_invalid hany]
    exact h

theorem getCell_initBoard_shape {rows cols : Nat} {labels : List String} {q : Pos}
    {sl : Slot} (h : getCell (initBoard rows cols labels) q = some sl) :
    sl.faceUp = false ∧ sl.controller = none := by
  obtain ⟨hw, row, hrow, hcol⟩ := getCell_as_parts h
  simp only [initBoard] at hrow
  rw [List.getElem?_map] at hrow
  cases hr : (List.range rows)[q.r.toNat]? with
  | none => rw [hr] at hrow; exact Option.noConfusion hrow
  | some r0 =>
      rw [hr] at hrow
      simp only [Option.map_some'] at hrow
      injection hrow with hrow
      rw [← hrow] at hcol
      rw [List.getElem?_map] at hcol
      cases hcx : (List.range cols)[q.c.toNat]? with
      | none => rw [hcx] at hcol; exact Option.noConfusion hcol
      | some c0 =>
          rw [hcx] at hcol
          simp only [Option.map_some'] at hcol
          injection hcol with hcol
          injection hcol with hcol
          rw [← hcol]
          exact ⟨rfl, rfl⟩

theorem inv_init (rows cols : Nat) (labels : List String) :
    Inv (initBoard rows cols labels) := by
  constructor
  · intro p sl hp _
    exact (getCell_initBoard_shape hp).2
  · intro q f hq
    exact Option.noConfusion hq

theorem inv_applyOp (op : Op) {s : BoardState} (h : Inv s) : Inv (applyOp op s) := by
  cases op with
  | opFlipFirst pos pl => exact inv_flipFirst pos pl h
  | opFlipFirstAsync pos pl =>
      have hst := inv_settle pl h
      have hatt := inv_flipFirstAttempt pos pl hst
      show Inv (match flipFirstAsyncStart pos pl s with
        | .inl o => o.state
        | .inr s2 => s2)
      unfold flipFirstAsyncStart
      dsimp only
      cases hA : flipFirstAttempt pos pl (settleBeforeNewFirstMove pl s).1 with
      | inl o => rw [hA] at hatt; exact hatt
      | inr s2 => rw [hA] at hatt; exact hatt
  | retryFirst pos pl => exact inv_flipFirstAttempt pos pl h
  | opFlipSecond pos pl => exact inv_flipSecond pos pl h
  | opSettle pl => exact inv_settle pl h
  | opMap t => exact inv_map t h
  | opMapCards t => exact inv_mapCards t h
  | opSnapshot pl => exact h
  | opWatch pl => exact inv_congr (fun q => getCell_congr rfl rfl rfl q) rfl h

theorem inv_reachable {s : BoardState} (h : Reachable s) : Inv s := by
  induction h with
  | init rows cols labels _ => exact inv_init rows cols labels
  | step op _ ih => exact inv_applyOp op ih

/-! ## Claim theorem: invariant I1 on reachable states -/

/-- C9: on every board state reachable from a freshly constructed board
through the public operations (first flips — synchronous, asynchronous and
the parked-retry iteration —, second flips, the 3-A/3-B cleanup, `map`,
`mapCards`, `snapshot` and `watch`), invariant I1 holds: every occupied
face-down cell has no controller. -/
theorem C9_reachable_down_uncontrolled (s : BoardState) (h : Reachable s) : I1 s :=
  (inv_reachable h).1

/-- Witness for C9 at the one-step-reachable state obtained by a first flip
on a fresh 1×2 board. -/
theorem C9_reachable_down_uncontrolled_witness :
    Reachable (applyOp (.opFlipFirst ⟨0, 0⟩ "alice") (initBoard 1 2 ["a", "b"])) ∧
    I1 (applyOp (.opFlipFirst ⟨0, 0⟩ "alice") (initBoard 1 2 ["a", "b"])) :=
  ⟨Reachable.step (.opFlipFirst ⟨0, 0⟩ "alice")
      (Reachable.init 1 2 ["a", "b"] (by decide)),
   C9_reachable_down_uncontrolled _
     (Reachable.step (.opFlipFirst ⟨0, 0⟩ "alice")
       (Reachable.init 1 2 ["a", "b"] (by decide)))⟩

end MemScramble
